import Mathlib

/-!
Verification development for the florelabs/vault battle-viewer core.

This file shallowly embeds the hexagonal coordinate utilities
(src/packages/battle-viewer/src/utils/hex.ts), the character entity
(src/packages/battle-viewer/src/core/battle-character.ts), the arena
(src/packages/battle-viewer/src/core/battle-arena.ts) and the turn/action
orchestrator (src/packages/battle-viewer/src/core/battle-orchestrator.ts),
and proves the specified properties about the embedded definitions.

Modelling conventions:
- JavaScript numbers are modelled as exact arithmetic: grid coordinates and
  array indices as integers / naturals, pixel-space values as rationals.
  The IEEE double constant Math.sqrt(3) used by axialToPixel is abstracted
  as an explicit rational parameter named sqrt3, since no verified claim
  depends on its numeric value (both sides of every proved equality go
  through the same constant).
- JavaScript Map objects are modelled as association lists with
  set/delete/get operations reproducing the Map semantics (set replaces the
  value of an existing key in place, otherwise appends).
- Object identity (needed to talk about a character object that was
  replaced in a map but never destroyed) is modelled with a heap of
  numbered character objects: the arena map stores object tags and a
  separate object store maps tags to character states.
-/

/-- Axial hexagonal grid coordinates, from the TS interface AxialCoordinates
(q and r are numbers; all program uses are integer grid positions). -/
structure AxialCoordinates where
  q : Int
  r : Int
deriving DecidableEq, Repr

/-- Pixel coordinates, from the TS interface PixelCoordinates, modelled over ℚ. -/
structure PixelCoordinates where
  x : ℚ
  y : ℚ
deriving DecidableEq, Repr

/-- axialToPixel from utils/hex.ts: x = tileSize * Math.sqrt(3) * (q + r / 2),
y = tileSize * 3 / 2 * r. The square-root constant is the explicit parameter
sqrt3 (see the module conventions above). -/
def axialToPixel (sqrt3 : ℚ) (axialCoords : AxialCoordinates) (tileSize : ℚ) :
    PixelCoordinates :=
  { x := tileSize * sqrt3 * ((axialCoords.q : ℚ) + (axialCoords.r : ℚ) / 2)
    y := tileSize * 3 / 2 * (axialCoords.r : ℚ) }

/-- offsetPixelCoord from utils/hex.ts: shift by half the viewport dimensions. -/
def offsetPixelCoord (pixelCoord : PixelCoordinates)
    (viewportWidth viewportHeight : ℚ) : PixelCoordinates :=
  { x := pixelCoord.x + viewportWidth / 2
    y := pixelCoord.y + viewportHeight / 2 }

/-- createPixelCoordinatesFactory from utils/hex.ts. -/
def createPixelCoordinatesFactory (sqrt3 tileSize viewportWidth viewportHeight : ℚ) :
    AxialCoordinates → PixelCoordinates :=
  fun axialCoords =>
    offsetPixelCoord (axialToPixel sqrt3 axialCoords tileSize) viewportWidth viewportHeight

/-- Helper for intRange: the k consecutive integers starting at a. -/
def intRangeAux (a : Int) : ℕ → List Int
  | 0 => []
  | k + 1 => a :: intRangeAux (a + 1) k

/-- The integer values visited by a JS loop of the shape
for (let v = a; v <= b; v++), in order. -/
def intRange (a b : Int) : List Int :=
  intRangeAux a (b - a + 1).toNat

/-- generateAxialCoordinates from utils/hex.ts: for q from -radius to radius,
r from max(-radius, -q - radius) to min(radius, -q + radius). -/
def generateAxialCoordinates (radius : Int) : List AxialCoordinates :=
  (intRange (-radius) radius).flatMap (fun q =>
    (intRange (max (-radius) (-q - radius)) (min radius (-q + radius))).map
      (fun r => { q := q, r := r }))

/-- hashCoord from utils/hex.ts: the template string q + "," + r. -/
def hashCoord (q r : Int) : String :=
  toString q ++ "," ++ toString r

/-- Hex distance from the origin in axial coordinates:
max(|q|, |r|, |q+r|), the standard cube-distance (|q|+|r|+|q+r|)/2. -/
def hexDistanceFromOrigin (c : AxialCoordinates) : Int :=
  max |c.q| (max |c.r| |c.q + c.r|)

/-- Facing direction, from the TS union type FacingDirection = "left" | "right". -/
inductive FacingDirection where
  | left
  | right
deriving DecidableEq, Repr

/-- Modelled from the spec: the Facing Resolver getFacingDirection of
src/packages/battle-viewer/src/utils/hex.ts is not among the provided source
files (only its import sites in battle-character.ts / battle-orchestrator.ts
and the package README are), so it is reproduced from spec section 4.2:
with dq = to.q - from.q, dq > 0 yields right, dq < 0 yields left, and dq = 0
returns currentFacing unchanged; the currentFacing parameter defaults to
right (callers that pass only two arguments get that default). -/
def getFacingDirection (fromCoord toCoord : AxialCoordinates)
    (currentFacing : FacingDirection) : FacingDirection :=
  if toCoord.q - fromCoord.q > 0 then .right
  else if toCoord.q - fromCoord.q < 0 then .left
  else currentFacing

/-- Animation names, from the TS union type AnimationName. -/
inductive AnimationName where
  | idle
  | run
  | attack
  | hit
deriving DecidableEq, Repr

/-- Facing configuration of a sprite, from the TS interface CharacterFacingConfig. -/
structure CharacterFacingConfig where
  defaultFacing : Option FacingDirection
  allowMirroring : Option Bool
deriving DecidableEq, Repr

/-- Character sprite configuration, from the TS interface SpriteConfig.
Only the fields the verified claims depend on are modelled; animation
speed/loop tables and sizes only affect rendering. -/
structure SpriteConfig where
  spritesheet : String
  facingConfig : Option CharacterFacingConfig
deriving DecidableEq, Repr

/-- The state of a BattleCharacter (core/battle-character.ts). The pixi
container mirrors position (container.x/y are assigned together with
position in every source path), so it is not duplicated here; the rendering
resources (sprites, spritesheet) are collaborator state. -/
structure BattleCharacter where
  id : String
  getPixelCoordinates : AxialCoordinates → PixelCoordinates
  position : PixelCoordinates
  axialPosition : AxialCoordinates
  currentFacing : FacingDirection
  defaultFacing : FacingDirection
  currentAnimation : AnimationName

/-- The BattleCharacter constructor: stores the axial position, derives the
pixel position through the injected conversion, takes defaultFacing from
spriteConfig.facingConfig?.defaultFacing || "right", and sets the initial
facing via calculateInitialFacing(), i.e. getFacingDirection towards the
centre {q:0,r:0} with the resolver's default currentFacing ("right").
currentAnimation starts as "idle" (field initializer). -/
def makeBattleCharacter (id : String) (axialPosition : AxialCoordinates)
    (getPixelCoordinates : AxialCoordinates → PixelCoordinates)
    (spriteConfig : SpriteConfig) : BattleCharacter :=
  { id := id
    getPixelCoordinates := getPixelCoordinates
    position := getPixelCoordinates axialPosition
    axialPosition := axialPosition
    defaultFacing := (spriteConfig.facingConfig.bind (fun fc => fc.defaultFacing)).getD .right
    currentFacing := getFacingDirection axialPosition { q := 0, r := 0 } .right
    currentAnimation := .idle }

/-- setAnimation: records the requested animation name (sprite/texture
bookkeeping is rendering-side). -/
def BattleCharacter.setAnimation (c : BattleCharacter) (name : AnimationName) :
    BattleCharacter :=
  { c with currentAnimation := name }

/-- moveToPosition: the source interpolates position towards targetPosition
with requestAnimationFrame over the wall clock, with animation "run" while
in flight, then sets the position to the target (eased progress 1), reverts
the animation to "idle" and resolves. The embedding keeps the state at
resolution of the returned promise; the in-flight real-time interpolation is
timing/rendering behaviour. The duration argument only shapes that timing. -/
def BattleCharacter.moveToPosition (c : BattleCharacter)
    (targetPosition : PixelCoordinates) (_duration : ℚ) : BattleCharacter :=
  { c with position := targetPosition, currentAnimation := .idle }

/-- setFacingDirection: no-op if unchanged, otherwise update (the sprite
mirroring is rendering-side). -/
def BattleCharacter.setFacingDirection (c : BattleCharacter)
    (direction : FacingDirection) : BattleCharacter :=
  if c.currentFacing = direction then c else { c with currentFacing := direction }

/-- moveToAxialPosition: resolves the facing from the current axial position
towards the target (passing the current facing as tie-break), applies it,
moves to the pixel conversion of the target, then updates the axial position
on completion. -/
def BattleCharacter.moveToAxialPosition (c : BattleCharacter)
    (targetAxialPosition : AxialCoordinates) (duration : ℚ) : BattleCharacter :=
  let facingDirection :=
    getFacingDirection c.axialPosition targetAxialPosition c.currentFacing
  let c1 := c.setFacingDirection facingDirection
  let c2 := c1.moveToPosition (c.getPixelCoordinates targetAxialPosition) duration
  { c2 with axialPosition := targetAxialPosition }

/-- moveAlongAxialPath: sequentially awaits moveToAxialPosition per waypoint. -/
def BattleCharacter.moveAlongAxialPath (c : BattleCharacter)
    (path : List AxialCoordinates) (stepDuration : ℚ) : BattleCharacter :=
  path.foldl (fun acc p => acc.moveToAxialPosition p stepDuration) c

/-- attack(): one-shot attack animation whose completion callback restores
"idle"; state at promise resolution. -/
def BattleCharacter.attack (c : BattleCharacter) : BattleCharacter :=
  { c with currentAnimation := .idle }

/-- hit(): one-shot hit animation whose completion callback restores "idle";
state at promise resolution. -/
def BattleCharacter.hit (c : BattleCharacter) : BattleCharacter :=
  { c with currentAnimation := .idle }

/-- setPosition: sets the pixel position (and the container) only. -/
def BattleCharacter.setPosition (c : BattleCharacter)
    (position : PixelCoordinates) : BattleCharacter :=
  { c with position := position }

/-- setAxialPosition: sets the axial position and re-derives the pixel
position through the stored conversion. -/
def BattleCharacter.setAxialPosition (c : BattleCharacter)
    (axialPosition : AxialCoordinates) : BattleCharacter :=
  { c with axialPosition := axialPosition
           position := c.getPixelCoordinates axialPosition }

/-- getPosition reader. -/
def BattleCharacter.getPosition (c : BattleCharacter) : PixelCoordinates :=
  c.position

/-- getAxialPosition reader. -/
def BattleCharacter.getAxialPosition (c : BattleCharacter) : AxialCoordinates :=
  c.axialPosition

/-- The pixel/axial synchronisation invariant of a character:
position equals the stored conversion of axialPosition. -/
abbrev BattleCharacter.pixelSynced (c : BattleCharacter) : Prop :=
  c.position = c.getPixelCoordinates c.axialPosition

/-- The public operations of a BattleCharacter that mutate its state
(readers omitted; initialize/destroy manage rendering resources). -/
inductive CharOp where
  | moveToPosition (target : PixelCoordinates) (duration : ℚ)
  | moveToAxialPosition (target : AxialCoordinates) (duration : ℚ)
  | moveAlongAxialPath (path : List AxialCoordinates) (stepDuration : ℚ)
  | attack
  | hit
  | setAnimation (name : AnimationName)
  | setPosition (position : PixelCoordinates)
  | setAxialPosition (axialPosition : AxialCoordinates)
  | setFacingDirection (direction : FacingDirection)

/-- Dispatch a public operation to the corresponding character method. -/
def applyCharOp (c : BattleCharacter) : CharOp → BattleCharacter
  | .moveToPosition t d => c.moveToPosition t d
  | .moveToAxialPosition t d => c.moveToAxialPosition t d
  | .moveAlongAxialPath p d => c.moveAlongAxialPath p d
  | .attack => c.attack
  | .hit => c.hit
  | .setAnimation n => c.setAnimation n
  | .setPosition p => c.setPosition p
  | .setAxialPosition a => c.setAxialPosition a
  | .setFacingDirection d => c.setFacingDirection d

/-- The operations that keep pixel and axial position in sync: everything
except the two pixel-only mutators setPosition and moveToPosition. -/
def axialLevelOp : CharOp → Bool
  | .setPosition _ => false
  | .moveToPosition _ _ => false
  | _ => true

/-- Get for association lists, modelling JS Map.get / object indexing
(returns the value of the first matching key; keys are unique when the list
is only built through listSet). -/
def listGet {α β : Type} [DecidableEq α] : List (α × β) → α → Option β
  | [], _ => none
  | (k1, v1) :: rest, k => if k1 = k then some v1 else listGet rest k

/-- Set for association lists, modelling JS Map.set / object assignment:
replace the value of an existing key in place, otherwise append. -/
def listSet {α β : Type} [DecidableEq α] : List (α × β) → α → β → List (α × β)
  | [], k, v => [(k, v)]
  | (k1, v1) :: rest, k, v =>
    if k1 = k then (k, v) :: rest else (k1, v1) :: listSet rest k v

/-- Delete for association lists, modelling JS Map.delete. -/
def listDelete {α β : Type} [DecidableEq α] : List (α × β) → α → List (α × β)
  | [], _ => []
  | (k1, v1) :: rest, k => if k1 = k then rest else (k1, v1) :: listDelete rest k

/-- Terrain behaviour properties, from the TS interface TerrainProperties
(every field is optional; extra custom keys do not affect the core). -/
structure TerrainProperties where
  passable : Option Bool
  blocksProjectiles : Option Bool
  blocksVision : Option Bool
  movementCost : Option ℚ
deriving DecidableEq, Repr

/-- Per-coordinate terrain override, from the TS interface TerrainDefinition. -/
structure TerrainDefinition where
  type : String
  spriteId : String
  properties : Option TerrainProperties
deriving DecidableEq, Repr

/-- A battle participant, from the TS interface BattleParticipant (weaponId
only feeds a debug log in the character constructor). -/
structure BattleParticipant where
  id : String
  name : String
  initialPosition : AxialCoordinates
  spriteConfig : Option SpriteConfig
deriving DecidableEq, Repr

/-- The state of a BattleArena (core/battle-arena.ts) restricted to the
fields the verified claims are about: the terrain override map (keyed by
hashCoord strings), the coordinate conversion closure, and the live
character set. Characters are JS objects held by reference: the model
allocates a fresh numeric tag per constructed character (nextTag), the
characters map stores id -> tag, charObjects stores tag -> character state,
charactersContainer lists the tags added as display children, and
destroyedChars the tags whose destroy() has run. The tile set, textures and
rendering are collaborator state. -/
structure BattleArena where
  terrainMap : List (String × TerrainDefinition)
  getPixelCoordinates : AxialCoordinates → PixelCoordinates
  characters : List (String × ℕ)
  charObjects : List (ℕ × BattleCharacter)
  charactersContainer : List ℕ
  destroyedChars : List ℕ
  nextTag : ℕ

/-- getTerrainAt from battle-arena.ts: this.terrainMap[hashCoord(q, r)] || null. -/
def BattleArena.getTerrainAt (a : BattleArena) (coords : AxialCoordinates) :
    Option TerrainDefinition :=
  listGet a.terrainMap (hashCoord coords.q coords.r)

/-- isPassable from battle-arena.ts:
terrain === null || terrain.properties?.passable !== false. -/
def BattleArena.isPassable (a : BattleArena) (coords : AxialCoordinates) : Bool :=
  match a.getTerrainAt coords with
  | none => true
  | some terrain =>
    match terrain.properties with
    | none => true
    | some props =>
      match props.passable with
      | none => true
      | some b => b

/-- getCharacter from battle-arena.ts: this.characters.get(id) || null,
dereferencing the object tag through the object store. -/
def BattleArena.getCharacter (a : BattleArena) (id : String) :
    Option BattleCharacter :=
  match listGet a.characters id with
  | none => none
  | some tag => listGet a.charObjects tag

/-- addCharacter from battle-arena.ts: construct a character at the
participant's initialPosition with the arena's conversion closure, then
set it in the characters map and add its container as a display child.
The awaited initialize() resolves rendering assets; the model covers the
successful initialization path (asset resolution is collaborator state). -/
def BattleArena.addCharacter (a : BattleArena) (participant : BattleParticipant) :
    BattleArena :=
  let character := makeBattleCharacter participant.id participant.initialPosition
    a.getPixelCoordinates
    (participant.spriteConfig.getD { spritesheet := "", facingConfig := none })
  { a with
    charObjects := listSet a.charObjects a.nextTag character
    characters := listSet a.characters participant.id a.nextTag
    charactersContainer := a.charactersContainer ++ [a.nextTag]
    nextTag := a.nextTag + 1 }

/-- removeCharacter from battle-arena.ts: if the id is live, remove the
container child, destroy the character and delete the map entry; otherwise
a no-op. -/
def BattleArena.removeCharacter (a : BattleArena) (id : String) : BattleArena :=
  match listGet a.characters id with
  | none => a
  | some tag =>
    { a with
      charactersContainer := a.charactersContainer.erase tag
      destroyedChars := a.destroyedChars ++ [tag]
      characters := listDelete a.characters id }

/-- In-place mutation of the character object a live id refers to,
modelling orchestrator calls like character.moveToAxialPosition(...) on the
object returned by getCharacter. -/
def BattleArena.updateCharacter (a : BattleArena) (id : String)
    (f : BattleCharacter → BattleCharacter) : BattleArena :=
  match listGet a.characters id with
  | none => a
  | some tag =>
    match listGet a.charObjects tag with
    | none => a
    | some c => { a with charObjects := listSet a.charObjects tag (f c) }

/-- A small concrete terrain map used by closed witnesses: water at "0,0"
with passable false, forest at "2,0" with passable true. -/
def demoTerrainMap : List (String × TerrainDefinition) :=
  [("0,0", { type := "water", spriteId := "hexOcean00.png",
             properties := some { passable := some false, blocksProjectiles := none,
                                  blocksVision := none, movementCost := none } }),
   ("2,0", { type := "forest", spriteId := "hexForest00.png",
             properties := some { passable := some true, blocksProjectiles := none,
                                  blocksVision := none, movementCost := none } })]

/-- A concrete arena over demoTerrainMap with no characters. -/
def demoArena : BattleArena :=
  { terrainMap := demoTerrainMap
    getPixelCoordinates := createPixelCoordinatesFactory 2 32 800 600
    characters := []
    charObjects := []
    charactersContainer := []
    destroyedChars := []
    nextTag := 0 }

/-- A concrete character object for the addCharacter witness. -/
def demoCharacter : BattleCharacter :=
  makeBattleCharacter "hero" { q := 0, r := 0 }
    (createPixelCoordinatesFactory 2 32 800 600)
    { spritesheet := "knight.json", facingConfig := none }

/-- A concrete arena holding one live character "hero" under tag 0. -/
def demoArenaWithHero : BattleArena :=
  { terrainMap := []
    getPixelCoordinates := createPixelCoordinatesFactory 2 32 800 600
    characters := [("hero", 0)]
    charObjects := [(0, demoCharacter)]
    charactersContainer := [0]
    destroyedChars := []
    nextTag := 1 }

/-- A participant re-using the live id "hero". -/
def heroParticipant : BattleParticipant :=
  { id := "hero"
    name := "Hero"
    initialPosition := { q := 1, r := 1 }
    spriteConfig := some { spritesheet := "knight.json", facingConfig := none } }

/-- Action type, from the TS union "move" | "attack" | "skill" | "effect". -/
inductive ActionType where
  | move
  | attack
  | skill
  | effect
deriving DecidableEq, Repr

/-- A battle action, from the TS interface BattleAction (the free-form data
field only feeds console logs). -/
structure BattleAction where
  type : ActionType
  actor : String
  target : Option String
  position : Option AxialCoordinates
  path : Option (List AxialCoordinates)
deriving DecidableEq, Repr

/-- A battle turn, from the TS interface BattleTurn. -/
structure BattleTurn where
  id : String
  timestamp : ℚ
  actions : List BattleAction
deriving DecidableEq, Repr

/-- A battle timeline, from the TS interface BattleData. -/
structure BattleData where
  turns : List BattleTurn
  participants : List BattleParticipant
deriving DecidableEq, Repr

/-- The state of a BattleOrchestrator (core/battle-orchestrator.ts). -/
structure BattleOrchestrator where
  arena : BattleArena
  battleData : Option BattleData
  currentTurnIndex : ℕ
  currentActionIndex : ℕ
  isPlaying : Bool
  isPaused : Bool
  characterPositions : List (String × AxialCoordinates)

/-- The orchestrator constructor: stores the arena, with no battle data,
cursor (0,0), not playing, not paused, and an empty position cache. -/
def BattleOrchestrator.make (arena : BattleArena) : BattleOrchestrator :=
  { arena := arena
    battleData := none
    currentTurnIndex := 0
    currentActionIndex := 0
    isPlaying := false
    isPaused := false
    characterPositions := [] }

/-- reset(): cursor to (0,0), playback stopped; battle data kept. -/
def BattleOrchestrator.reset (o : BattleOrchestrator) : BattleOrchestrator :=
  { o with currentTurnIndex := 0, currentActionIndex := 0,
           isPlaying := false, isPaused := false }

/-- setBattleData(data): store the data, clear and re-seed the per-character
position cache from each participant's initialPosition (Map.set in
participant order), then reset(). -/
def BattleOrchestrator.setBattleData (o : BattleOrchestrator) (data : BattleData) :
    BattleOrchestrator :=
  ({ o with battleData := some data
            characterPositions := data.participants.foldl
              (fun (m : List (String × AxialCoordinates)) (p : BattleParticipant) =>
                listSet m p.id p.initialPosition) [] }).reset

/-- setPlaying(playing): no-op without battle data; otherwise set
isPlaying := playing and isPaused := !playing. The drain kick-off
(executeNextAction when starting while not already executing) is the
drain function below. -/
def BattleOrchestrator.setPlaying (o : BattleOrchestrator) (playing : Bool) :
    BattleOrchestrator :=
  match o.battleData with
  | none => o
  | some _ => { o with isPlaying := playing, isPaused := !playing }

/-- destroy(): stop playback and drop the battle data. -/
def BattleOrchestrator.destroy (o : BattleOrchestrator) : BattleOrchestrator :=
  { o with isPlaying := false, isPaused := true, battleData := none }

/-- getTotalTurns(): this.battleData?.turns.length || 0. -/
def BattleOrchestrator.getTotalTurns (o : BattleOrchestrator) : ℕ :=
  match o.battleData with
  | none => 0
  | some data => data.turns.length

/-- isFinished(): currentTurnIndex >= getTotalTurns(). -/
def BattleOrchestrator.isFinished (o : BattleOrchestrator) : Bool :=
  decide (o.getTotalTurns ≤ o.currentTurnIndex)

/-- The total number of actions across all turns (the reduce in
getProgress). -/
def totalActionCount (data : BattleData) : ℕ :=
  (data.turns.map (fun turn => turn.actions.length)).sum

/-- The number of actions before the cursor: all actions of the turns
before currentTurnIndex plus currentActionIndex (the loop in getProgress;
the source indexes turns[i] for i < currentTurnIndex, which for every
reachable cursor stays within the array). -/
def completedActionCount (data : BattleData) (o : BattleOrchestrator) : ℕ :=
  ((data.turns.take o.currentTurnIndex).map (fun turn => turn.actions.length)).sum
    + o.currentActionIndex

/-- getProgress(): 0 without data or with an empty turns array, otherwise
Math.min(completedActions / totalActions, 1). The JS division is an IEEE
double division, so when totalActions is 0 it does not follow the rational
division-by-zero convention: 0/0 is NaN (and Math.min(NaN, 1) = NaN),
modelled here as none, while k/0 for k > 0 is +Infinity (capped to 1 by the
min), modelled as some 1. With a nonzero divisor the quotient is modelled
as the exact rational (the some branch). -/
def BattleOrchestrator.getProgress (o : BattleOrchestrator) : Option ℚ :=
  match o.battleData with
  | none => some 0
  | some data =>
    if data.turns.length = 0 then some 0
    else
      if totalActionCount data = 0 then
        if completedActionCount data o = 0 then none
        else some 1
      else
        some (min ((completedActionCount data o : ℚ) / (totalActionCount data : ℚ)) 1)

/-- The position branch of executeMoveAction: a single
moveToAxialPosition with the default duration, then cache update. -/
def BattleOrchestrator.movePositionBranch (o : BattleOrchestrator)
    (action : BattleAction) : BattleOrchestrator :=
  match action.position with
  | some pos =>
    { o with
      arena := o.arena.updateCharacter action.actor
        (fun c => c.moveToAxialPosition pos 1000)
      characterPositions := listSet o.characterPositions action.actor pos }
  | none => o

/-- executeMoveAction: if a non-empty path is present, moveAlongAxialPath
and cache the last waypoint; else if a position is present, a single
moveToAxialPosition and cache it; otherwise nothing. -/
def BattleOrchestrator.executeMoveAction (o : BattleOrchestrator)
    (action : BattleAction) : BattleOrchestrator :=
  match action.path with
  | some path =>
    match path.getLast? with
    | some finalPosition =>
      { o with
        arena := o.arena.updateCharacter action.actor
          (fun c => c.moveAlongAxialPath path 1000)
        characterPositions := listSet o.characterPositions action.actor finalPosition }
    | none => o.movePositionBranch action
  | none => o.movePositionBranch action

/-- The facing step shared by attack and skill actions: when a target and
both cached positions exist, face the actor towards the target (the source
calls getFacingDirection with two arguments, so the resolver default
"right" applies as tie-break). -/
def BattleOrchestrator.faceTowardsTarget (o : BattleOrchestrator)
    (action : BattleAction) : BattleOrchestrator :=
  match action.target with
  | some target =>
    match listGet o.characterPositions action.actor,
        listGet o.characterPositions target with
    | some attackerPosition, some targetPosition =>
      { o with
        arena := o.arena.updateCharacter action.actor
          (fun c => c.setFacingDirection
            (getFacingDirection attackerPosition targetPosition .right)) }
    | some _, none => o
    | none, some _ => o
    | none, none => o
  | none => o

/-- executeAttackAction: face the target, play attack on the actor, then
hit on the target if that character exists. -/
def BattleOrchestrator.executeAttackAction (o : BattleOrchestrator)
    (action : BattleAction) : BattleOrchestrator :=
  let o1 := o.faceTowardsTarget action
  let o2 := { o1 with
              arena := o1.arena.updateCharacter action.actor (fun c => c.attack) }
  match action.target with
  | some target =>
    { o2 with arena := o2.arena.updateCharacter target (fun c => c.hit) }
  | none => o2

/-- executeSkillAction: same facing resolution as attack, then the attack
animation on the actor (skill-specific animations are an explicit TODO). -/
def BattleOrchestrator.executeSkillAction (o : BattleOrchestrator)
    (action : BattleAction) : BattleOrchestrator :=
  let o1 := o.faceTowardsTarget action
  { o1 with arena := o1.arena.updateCharacter action.actor (fun c => c.attack) }

/-- executeEffectAction: only a console log; no state mutation here. -/
def BattleOrchestrator.executeEffectAction (o : BattleOrchestrator)
    (_action : BattleAction) : BattleOrchestrator :=
  o

/-- Entries of the modelled console/trace: attempt records that the drain
dispatched the action at a cursor position (the trace of execution order),
actionError models the console.error of the catch branch, and
characterNotFound the console.warn for a missing actor. -/
inductive LogEntry where
  | attempt (turnIndex actionIndex : ℕ)
  | actionError (turnIndex actionIndex : ℕ)
  | characterNotFound (actor : String)
deriving DecidableEq, Repr

/-- executeAction: warn and return when the actor has no live character,
otherwise dispatch on the action type. -/
def BattleOrchestrator.executeAction (o : BattleOrchestrator)
    (action : BattleAction) : BattleOrchestrator × List LogEntry :=
  match o.arena.getCharacter action.actor with
  | none => (o, [.characterNotFound action.actor])
  | some _ =>
    match action.type with
    | .move => (o.executeMoveAction action, [])
    | .attack => (o.executeAttackAction action, [])
    | .skill => (o.executeSkillAction action, [])
    | .effect => (o.executeEffectAction action, [])

/-- The shape of the awaited action execution inside the drain loop: the
resulting orchestrator state, its console entries, and whether the awaited
promise rejected (the Bool). -/
abbrev ExecFn :=
  BattleAction → BattleOrchestrator → (BattleOrchestrator × List LogEntry) × Bool

/-- The drain's action execution with an environment-fault oracle: the
promise returned by executeAction rejects exactly at the cursor positions
the oracle marks (runtime action errors come from the environment, e.g.
animation promises; executeAction itself is total), otherwise the real
executeAction runs. -/
def faultyExec (throws : ℕ → ℕ → Bool) : ExecFn :=
  fun action o =>
    if throws o.currentTurnIndex o.currentActionIndex then ((o, []), true)
    else (o.executeAction action, false)

/-- One iteration of executeNextAction (battle-orchestrator.ts, the body up
to its asynchronous self-invocations). Returns the new state, the console
entries of the iteration, and whether the source would invoke
executeNextAction again (the recursion after advancing to the next turn,
the setTimeout continuation after a successful action, and the immediate
recursion of the catch branch). -/
def drainStep (exec : ExecFn) (o : BattleOrchestrator) :
    (BattleOrchestrator × List LogEntry) × Bool :=
  match o.battleData with
  | none => ((o, []), false)
  | some data =>
    if !o.isPlaying || o.isPaused then ((o, []), false)
    else
      match data.turns[o.currentTurnIndex]? with
      | none => ((o, []), false)
      | some currentTurn =>
        match currentTurn.actions[o.currentActionIndex]? with
        | none =>
          let o1 := { o with currentTurnIndex := o.currentTurnIndex + 1,
                             currentActionIndex := 0 }
          if o1.currentTurnIndex < data.turns.length then ((o1, []), true)
          else (({ o1 with isPlaying := false }, []), false)
        | some currentAction =>
          match exec currentAction o with
          | ((o1, logs), false) =>
            let o2 := { o1 with currentActionIndex := o1.currentActionIndex + 1 }
            ((o2, LogEntry.attempt o.currentTurnIndex o.currentActionIndex :: logs),
              o2.isPlaying && !o2.isPaused)
          | ((o1, logs), true) =>
            let o2 := { o1 with currentActionIndex := o1.currentActionIndex + 1 }
            ((o2, (LogEntry.attempt o.currentTurnIndex o.currentActionIndex :: logs)
                ++ [LogEntry.actionError o.currentTurnIndex o.currentActionIndex]),
              true)

/-- The full drain loop: iterate drainStep while it requests continuation,
accumulating console entries. The fuel bounds the number of iterations;
every theorem below supplies enough fuel for the drain to finish on its
own (each iteration advances the cursor, so the loop terminates). -/
def executeNextAction (exec : ExecFn) : ℕ → BattleOrchestrator →
    BattleOrchestrator × List LogEntry
  | 0, o => (o, [])
  | fuel + 1, o =>
    match drainStep exec o with
    | ((o1, logs), false) => (o1, logs)
    | ((o1, logs), true) =>
      let rest := executeNextAction exec fuel o1
      (rest.1, logs ++ rest.2)

/-- The cursor positions of the actions a drain starting at turn t, action a
still has to visit: the rest of the turn at the head of the list, then all
actions of the later turns. -/
def remainingFrom : List BattleTurn → ℕ → ℕ → List (ℕ × ℕ)
  | [], _, _ => []
  | turn :: rest, t, a =>
    ((List.range (turn.actions.length - a)).map (fun j => (t, a + j)))
      ++ remainingFrom rest (t + 1) 0

/-- remainingFrom anchored in the full turn list at cursor (t, a). -/
def remainingPositions (turns : List BattleTurn) (t a : ℕ) : List (ℕ × ℕ) :=
  remainingFrom (turns.drop t) t a

/-- The attempt positions recorded in a console trace, in order. -/
def attemptsOf : List LogEntry → List (ℕ × ℕ)
  | [] => []
  | .attempt t a :: rest => (t, a) :: attemptsOf rest
  | .actionError _ _ :: rest => attemptsOf rest
  | .characterNotFound _ :: rest => attemptsOf rest

/-- The action-error positions recorded in a console trace, in order. -/
def errorsOf : List LogEntry → List (ℕ × ℕ)
  | [] => []
  | .actionError t a :: rest => (t, a) :: errorsOf rest
  | .attempt _ _ :: rest => errorsOf rest
  | .characterNotFound _ :: rest => errorsOf rest

/-- Fuel sufficient for the drain to run to completion from cursor (t, a):
one iteration per remaining action plus one per turn advance. -/
def drainFuel (turns : List BattleTurn) (t a : ℕ) : ℕ :=
  (remainingPositions turns t a).length + (turns.length - t) + 1

/-- Strict lexicographic order on cursor positions. -/
def lexLt (p q : ℕ × ℕ) : Prop :=
  p.1 < q.1 ∨ (p.1 = q.1 ∧ p.2 < q.2)

/-- The action stored at a cursor position, when both indices are in range. -/
def actionAt (turns : List BattleTurn) (t a : ℕ) : Option BattleAction :=
  match turns[t]? with
  | none => none
  | some turn => turn.actions[a]?

/-- A concrete move action for hero along a two-step path. -/
def demoMoveAction : BattleAction :=
  { type := .move
    actor := "hero"
    target := none
    position := none
    path := some [{ q := 1, r := 1 }, { q := 0, r := 1 }] }

/-- A concrete attack action whose actor id has no live character. -/
def demoGhostAction : BattleAction :=
  { type := .attack
    actor := "ghost"
    target := none
    position := none
    path := none }

/-- A concrete timeline: one turn with a valid move and a missing-actor
attack. -/
def demoBattleData : BattleData :=
  { turns := [{ id := "t1", timestamp := 0,
                actions := [demoMoveAction, demoGhostAction] }]
    participants := [heroParticipant] }

/-- A concrete orchestrator that has loaded demoBattleData and started
playing. -/
def demoPlayingOrch : BattleOrchestrator :=
  ((BattleOrchestrator.make demoArenaWithHero).setBattleData
    demoBattleData).setPlaying true

/-- A degenerate but loadable timeline: one turn whose action list is
empty, so the total action count is 0 while the turns array is not empty. -/
def emptyActionsBattleData : BattleData :=
  { turns := [{ id := "t1", timestamp := 0, actions := [] }]
    participants := [] }

/-- The orchestrator states reachable through the public API: construction,
setBattleData, setPlaying, reset, destroy, and the iterations of the drain
loop (with arbitrary environment faults). -/
inductive Reachable : BattleOrchestrator → Prop where
  | make (arena : BattleArena) : Reachable (BattleOrchestrator.make arena)
  | setBattleData (o : BattleOrchestrator) (data : BattleData) :
      Reachable o → Reachable (o.setBattleData data)
  | setPlaying (o : BattleOrchestrator) (playing : Bool) :
      Reachable o → Reachable (o.setPlaying playing)
  | reset (o : BattleOrchestrator) : Reachable o → Reachable o.reset
  | destroy (o : BattleOrchestrator) : Reachable o → Reachable o.destroy
  | drain (o : BattleOrchestrator) (throws : ℕ → ℕ → Bool) :
      Reachable o → Reachable (drainStep (faultyExec throws) o).1.1

/-- The cursor well-formedness invariant: with data loaded, the turn index
never passes the turn count, the action index never passes the current
turn's action count, and past the last turn the action index is 0. -/
def cursorInv (o : BattleOrchestrator) : Prop :=
  ∀ data, o.battleData = some data →
    o.currentTurnIndex ≤ data.turns.length
    ∧ (∀ turn, data.turns[o.currentTurnIndex]? = some turn →
        o.currentActionIndex ≤ turn.actions.length)
    ∧ (data.turns[o.currentTurnIndex]? = none → o.currentActionIndex = 0)

theorem length_intRangeAux (a : Int) (k : ℕ) : (intRangeAux a k).length = k := by
  induction k generalizing a with
  | zero => rfl
  | succ k ih => simp [intRangeAux, ih]

theorem length_intRange (a b : Int) : (intRange a b).length = (b - a + 1).toNat := by
  rw [intRange, length_intRangeAux]

theorem mem_intRangeAux {a x : Int} {k : ℕ} :
    x ∈ intRangeAux a k ↔ a ≤ x ∧ x < a + k := by
  induction k generalizing a with
  | zero =>
    simp only [intRangeAux, List.not_mem_nil, false_iff]
    omega
  | succ k ih =>
    simp only [intRangeAux, List.mem_cons, ih]
    omega

theorem mem_intRange {a b x : Int} : x ∈ intRange a b ↔ a ≤ x ∧ x ≤ b := by
  rw [intRange, mem_intRangeAux]
  omega

theorem sum_map_intRangeAux (g : Int → ℕ) (a : Int) (k : ℕ) :
    ((intRangeAux a k).map g).sum = ∑ i in Finset.range k, g (a + (i : Int)) := by
  induction k generalizing a with
  | zero => simp [intRangeAux]
  | succ k ih =>
    rw [intRangeAux, List.map_cons, List.sum_cons, ih, Finset.sum_range_succ']
    have h0 : g (a + ((0 : ℕ) : Int)) = g a := by norm_num
    have hs : ∀ i ∈ Finset.range k, g (a + 1 + (i : Int)) = g (a + ((i + 1 : ℕ) : Int)) := by
      intro i hi
      congr 1
      push_cast
      ring
    rw [Finset.sum_congr rfl hs, h0, add_comm]

theorem mem_generateAxialCoordinates {radius : Int} {c : AxialCoordinates} :
    c ∈ generateAxialCoordinates radius ↔
      (-radius ≤ c.q ∧ c.q ≤ radius ∧
        max (-radius) (-c.q - radius) ≤ c.r ∧ c.r ≤ min radius (-c.q + radius)) := by
  simp only [generateAxialCoordinates, List.mem_flatMap, List.mem_map, mem_intRange]
  constructor
  · rintro ⟨q, ⟨hq1, hq2⟩, r, ⟨hr1, hr2⟩, rfl⟩
    exact ⟨hq1, hq2, hr1, hr2⟩
  · rintro ⟨h1, h2, h3, h4⟩
    exact ⟨c.q, ⟨h1, h2⟩, c.r, ⟨h3, h4⟩, rfl⟩

theorem mem_generateAxialCoordinates_iff_dist {radius : Int} {c : AxialCoordinates} :
    c ∈ generateAxialCoordinates radius ↔ hexDistanceFromOrigin c ≤ radius := by
  rw [mem_generateAxialCoordinates]
  simp only [hexDistanceFromOrigin, max_le_iff, le_min_iff, abs_le]
  omega

theorem list_sum_map_range (f : ℕ → ℕ) (n : ℕ) :
    ((List.range n).map f).sum = ∑ i in Finset.range n, f i := by
  induction n with
  | zero => simp
  | succ n ih =>
    rw [List.range_succ, List.map_append, List.sum_append, Finset.sum_range_succ, ih]
    simp

theorem inner_count_eq (n i : ℕ) (hi : i ≤ 2 * n) :
    (min (n : Int) (2 * (n : Int) - (i : Int)) -
      max (-(n : Int)) (-(i : Int)) + 1).toNat = n + 1 + min i (2 * n - i) := by
  rcases le_total i n with h | h
  · rw [min_eq_left (by omega : (n : Int) ≤ 2 * (n : Int) - (i : Int)),
      max_eq_right (by omega : -(n : Int) ≤ -(i : Int)),
      min_eq_left (by omega : i ≤ 2 * n - i)]
    omega
  · rw [min_eq_right (by omega : 2 * (n : Int) - (i : Int) ≤ (n : Int)),
      max_eq_left (by omega : -(i : Int) ≤ -(n : Int)),
      min_eq_right (by omega : 2 * n - i ≤ i)]
    omega

theorem sum_min_range (n : ℕ) :
    (∑ i in Finset.range (2 * n + 1), min i (2 * n - i)) = n ^ 2 := by
  induction n with
  | zero => simp
  | succ n ih =>
    have h1 : 2 * (n + 1) + 1 = (2 * n + 2) + 1 := by ring
    have h2 : ∀ i ∈ Finset.range (2 * n + 1),
        min (i + 1) (2 * (n + 1) - (i + 1)) = min i (2 * n - i) + 1 := by
      intro i hi
      rw [Finset.mem_range] at hi
      have h3 : 2 * (n + 1) - (i + 1) = (2 * n - i) + 1 := by omega
      rw [h3, Nat.succ_min_succ]
    rw [h1, Finset.sum_range_succ, Finset.sum_range_succ',
      Finset.sum_congr rfl h2, Finset.sum_add_distrib, ih]
    simp only [Finset.sum_const, Finset.card_range, smul_eq_mul, mul_one]
    have h4 : min (0 : ℕ) (2 * (n + 1) - 0) = 0 := by omega
    have h5 : min (2 * n + 2) (2 * (n + 1) - (2 * n + 2)) = 0 := by omega
    rw [h4, h5]
    ring

theorem length_generateAxialCoordinates_nat (n : ℕ) :
    (generateAxialCoordinates (n : Int)).length = 3 * n ^ 2 + 3 * n + 1 := by
  have step1 : (generateAxialCoordinates (n : Int)).length
      = ((intRange (-(n : Int)) (n : Int)).map
          (fun q => (min (n : Int) (-q + (n : Int)) -
            max (-(n : Int)) (-q - (n : Int)) + 1).toNat)).sum := by
    rw [generateAxialCoordinates, List.length_flatMap]
    simp only [Function.comp_def, List.length_map, length_intRange]
  have hN : ((n : Int) - -(n : Int) + 1).toNat = 2 * n + 1 := by omega
  rw [step1, intRange, hN, sum_map_intRangeAux]
  have hcongr : ∀ i ∈ Finset.range (2 * n + 1),
      (min (n : Int) (-(-(n : Int) + (i : Int)) + (n : Int)) -
        max (-(n : Int)) (-(-(n : Int) + (i : Int)) - (n : Int)) + 1).toNat
        = n + 1 + min i (2 * n - i) := by
    intro i hi
    rw [Finset.mem_range] at hi
    have h1 : -(-(n : Int) + (i : Int)) + (n : Int) = 2 * (n : Int) - (i : Int) := by ring
    have h2 : -(-(n : Int) + (i : Int)) - (n : Int) = -(i : Int) := by ring
    rw [h1, h2, inner_count_eq n i (by omega)]
  rw [Finset.sum_congr rfl hcongr, Finset.sum_add_distrib, sum_min_range]
  simp only [Finset.sum_const, Finset.card_range, smul_eq_mul, mul_one]
  ring

/-- C1: for every integer radius R ≥ 0, generateAxialCoordinates(R) returns
exactly 3R² + 3R + 1 coordinates, namely every {q, r} with q in [-R, R] and
r in [max(-R, -q-R), min(R, -q+R)] (equivalently every coordinate at hex
distance at most R from the origin) and nothing else; for R < 0 it returns
the empty list. -/
theorem generateAxialCoordinates_spec (radius : Int) :
    (0 ≤ radius →
      ((generateAxialCoordinates radius).length : Int) =
        3 * radius ^ 2 + 3 * radius + 1)
    ∧ (∀ c : AxialCoordinates,
        c ∈ generateAxialCoordinates radius ↔
          (-radius ≤ c.q ∧ c.q ≤ radius ∧
            max (-radius) (-c.q - radius) ≤ c.r ∧ c.r ≤ min radius (-c.q + radius)))
    ∧ (∀ c : AxialCoordinates,
        c ∈ generateAxialCoordinates radius ↔ hexDistanceFromOrigin c ≤ radius)
    ∧ (radius < 0 → generateAxialCoordinates radius = []) := by
  refine ⟨?_, fun c => mem_generateAxialCoordinates,
    fun c => mem_generateAxialCoordinates_iff_dist, ?_⟩
  · intro h
    obtain ⟨n, rfl⟩ : ∃ n : ℕ, radius = (n : Int) :=
      ⟨radius.toNat, (Int.toNat_of_nonneg h).symm⟩
    rw [length_generateAxialCoordinates_nat]
    push_cast
    ring
  · intro h
    have hz : ((radius - -radius + 1).toNat) = 0 := by omega
    rw [generateAxialCoordinates, intRange, hz]
    rfl

/-- Closed witness for generateAxialCoordinates_spec at radius 2 and -1. -/
theorem generateAxialCoordinates_spec_witness :
    ((generateAxialCoordinates 2).length : Int) = 3 * 2 ^ 2 + 3 * 2 + 1
    ∧ generateAxialCoordinates (-1) = [] :=
  ⟨(generateAxialCoordinates_spec 2).1 (by decide),
    (generateAxialCoordinates_spec (-1)).2.2.2 (by decide)⟩

/-- C2: getFacingDirection is pure and total (it is a Lean function), returns
right when to.q - from.q > 0, left when to.q - from.q < 0, and the incoming
currentFacing unchanged when to.q - from.q = 0. -/
theorem getFacingDirection_spec (fromCoord toCoord : AxialCoordinates)
    (currentFacing : FacingDirection) :
    (toCoord.q - fromCoord.q > 0 →
      getFacingDirection fromCoord toCoord currentFacing = .right)
    ∧ (toCoord.q - fromCoord.q < 0 →
      getFacingDirection fromCoord toCoord currentFacing = .left)
    ∧ (toCoord.q - fromCoord.q = 0 →
      getFacingDirection fromCoord toCoord currentFacing = currentFacing) := by
  unfold getFacingDirection
  refine ⟨?_, ?_, ?_⟩ <;> intro h <;> split_ifs <;> first | rfl | omega

/-- Closed witness for getFacingDirection_spec, at the three example calls of
spec section 8. -/
theorem getFacingDirection_spec_witness :
    getFacingDirection { q := 0, r := 0 } { q := 5, r := 0 } .right = .right
    ∧ getFacingDirection { q := 0, r := 0 } { q := -5, r := 0 } .right = .left
    ∧ getFacingDirection { q := 2, r := 3 } { q := 2, r := 9 } .left = .left :=
  ⟨(getFacingDirection_spec { q := 0, r := 0 } { q := 5, r := 0 } .right).1 (by decide),
    (getFacingDirection_spec { q := 0, r := 0 } { q := -5, r := 0 } .right).2.1 (by decide),
    (getFacingDirection_spec { q := 2, r := 3 } { q := 2, r := 9 } .left).2.2 (by decide)⟩

theorem setFacingDirection_fields (c : BattleCharacter) (d : FacingDirection) :
    (c.setFacingDirection d).position = c.position
    ∧ (c.setFacingDirection d).axialPosition = c.axialPosition
    ∧ (c.setFacingDirection d).getPixelCoordinates = c.getPixelCoordinates := by
  unfold BattleCharacter.setFacingDirection
  split <;> exact ⟨rfl, rfl, rfl⟩

theorem moveToAxialPosition_fields (c : BattleCharacter) (t : AxialCoordinates) (d : ℚ) :
    (c.moveToAxialPosition t d).position = c.getPixelCoordinates t
    ∧ (c.moveToAxialPosition t d).axialPosition = t
    ∧ (c.moveToAxialPosition t d).getPixelCoordinates = c.getPixelCoordinates := by
  unfold BattleCharacter.moveToAxialPosition BattleCharacter.moveToPosition
  refine ⟨rfl, rfl, ?_⟩
  exact (setFacingDirection_fields c _).2.2

theorem moveToAxialPosition_pixelSynced (c : BattleCharacter)
    (t : AxialCoordinates) (d : ℚ) : (c.moveToAxialPosition t d).pixelSynced := by
  unfold BattleCharacter.pixelSynced
  rw [(moveToAxialPosition_fields c t d).1, (moveToAxialPosition_fields c t d).2.1,
    (moveToAxialPosition_fields c t d).2.2]

theorem moveAlongAxialPath_pixelSynced (path : List AxialCoordinates) :
    ∀ (c : BattleCharacter) (d : ℚ), c.pixelSynced →
      (c.moveAlongAxialPath path d).pixelSynced := by
  induction path with
  | nil => intro c d h; exact h
  | cons p rest ih =>
    intro c d h
    exact ih (c.moveToAxialPosition p d) d (moveToAxialPosition_pixelSynced c p d)

theorem applyCharOp_pixelSynced (c : BattleCharacter) (op : CharOp)
    (hc : c.pixelSynced) (hop : axialLevelOp op = true) :
    (applyCharOp c op).pixelSynced := by
  cases op with
  | moveToPosition t d => simp [axialLevelOp] at hop
  | moveToAxialPosition t d => exact moveToAxialPosition_pixelSynced c t d
  | moveAlongAxialPath p d => exact moveAlongAxialPath_pixelSynced p c d hc
  | attack => exact hc
  | hit => exact hc
  | setAnimation n => exact hc
  | setPosition p => simp [axialLevelOp] at hop
  | setAxialPosition a => rfl
  | setFacingDirection d =>
    show (c.setFacingDirection d).position
      = (c.setFacingDirection d).getPixelCoordinates (c.setFacingDirection d).axialPosition
    rw [(setFacingDirection_fields c d).1, (setFacingDirection_fields c d).2.1,
      (setFacingDirection_fields c d).2.2]
    exact hc

theorem foldl_applyCharOp_pixelSynced :
    ∀ (ops : List CharOp) (c : BattleCharacter), c.pixelSynced →
      (∀ op ∈ ops, axialLevelOp op = true) →
      (ops.foldl applyCharOp c).pixelSynced := by
  intro ops
  induction ops with
  | nil => intro c hc _; exact hc
  | cons op rest ih =>
    intro c hc hops
    exact ih (applyCharOp c op)
      (applyCharOp_pixelSynced c op hc (hops op (List.mem_cons_self op rest)))
      (fun o ho => hops o (List.mem_cons_of_mem op ho))

/-- C3 counterexample: the claim states getPosition() equals
axialToPixel(target, tileSize) after the move, but the character converts
axial positions through the injected factory, which adds half the viewport
size (the arena default is 800 by 600, offset (400, 300)); at target
(0,0) the claimed value is (0,0) while the actual position is (400, 300). -/
theorem moveToAxialPosition_pixel_counterexample :
    ((makeBattleCharacter "hero" { q := 1, r := 0 }
        (createPixelCoordinatesFactory 2 1 800 600)
        { spritesheet := "knight.json", facingConfig := none }).moveToAxialPosition
          { q := 0, r := 0 } 0).getPosition
      ≠ axialToPixel 2 { q := 0, r := 0 } 1 := by
  intro h
  have hx := congrArg PixelCoordinates.x h
  simp only [BattleCharacter.getPosition, BattleCharacter.moveToAxialPosition,
    BattleCharacter.moveToPosition, BattleCharacter.setFacingDirection,
    makeBattleCharacter, createPixelCoordinatesFactory, offsetPixelCoord,
    axialToPixel] at hx
  norm_num at hx

/-- C3 amended: after moveToAxialPosition(target, duration) resolves,
getAxialPosition() equals target and getPosition() equals the character's
injected axial-to-pixel conversion of target, which for arena-created
characters is offsetPixelCoord(axialToPixel(target, tileSize), viewportWidth,
viewportHeight) - the viewport-centred conversion, not bare axialToPixel. -/
theorem moveToAxialPosition_spec (sqrt3 tileSize viewportWidth viewportHeight : ℚ)
    (c : BattleCharacter)
    (hconv : c.getPixelCoordinates =
      createPixelCoordinatesFactory sqrt3 tileSize viewportWidth viewportHeight)
    (target : AxialCoordinates) (duration : ℚ) :
    (c.moveToAxialPosition target duration).getAxialPosition = target
    ∧ (c.moveToAxialPosition target duration).getPosition
        = offsetPixelCoord (axialToPixel sqrt3 target tileSize)
            viewportWidth viewportHeight := by
  refine ⟨rfl, ?_⟩
  show c.getPixelCoordinates target = _
  rw [hconv]
  rfl

/-- Closed witness for moveToAxialPosition_spec at concrete inputs. -/
theorem moveToAxialPosition_spec_witness :
    ((makeBattleCharacter "hero" { q := 1, r := 0 }
        (createPixelCoordinatesFactory 2 1 800 600)
        { spritesheet := "knight.json", facingConfig := none }).moveToAxialPosition
          { q := 0, r := 0 } 0).getAxialPosition = { q := 0, r := 0 }
    ∧ ((makeBattleCharacter "hero" { q := 1, r := 0 }
        (createPixelCoordinatesFactory 2 1 800 600)
        { spritesheet := "knight.json", facingConfig := none }).moveToAxialPosition
          { q := 0, r := 0 } 0).getPosition
        = offsetPixelCoord (axialToPixel 2 { q := 0, r := 0 } 1) 800 600 :=
  moveToAxialPosition_spec 2 1 800 600 _ rfl { q := 0, r := 0 } 0

/-- C4 counterexample: the public pixel-level mutator setPosition sets the
pixel position independently of the axial position, breaking the claimed
always-in-sync invariant outside any in-flight move. -/
theorem characterPixelSync_counterexample :
    ¬ ((makeBattleCharacter "hero" { q := 0, r := 0 }
        (createPixelCoordinatesFactory 2 1 0 0)
        { spritesheet := "knight.json", facingConfig := none }).setPosition
          { x := 5, y := 7 }).pixelSynced := by
  intro h
  have hx := congrArg PixelCoordinates.x h
  simp only [BattleCharacter.setPosition, makeBattleCharacter,
    createPixelCoordinatesFactory, offsetPixelCoord, axialToPixel] at hx
  norm_num at hx

/-- C4 amended: for every character and every sequence of its public
mutating operations drawn from the axial-level subset (everything except
the pixel-only mutators setPosition and moveToPosition), at every moment
outside an in-flight interpolated move the pixel position equals the stored
axial-to-pixel conversion of the axial position. Every prefix of such a
sequence is again such a sequence, so the statement covers every
intermediate moment. The public setPosition and moveToPosition methods do
set the pixel position independently and break this invariant (see the
counterexample), so the claim holds only for the axial-level operations. -/
theorem characterPixelSync (id : String) (initAxial : AxialCoordinates)
    (conv : AxialCoordinates → PixelCoordinates) (spriteConfig : SpriteConfig)
    (ops : List CharOp) (hops : ∀ op ∈ ops, axialLevelOp op = true) :
    (ops.foldl applyCharOp
      (makeBattleCharacter id initAxial conv spriteConfig)).pixelSynced :=
  foldl_applyCharOp_pixelSynced ops _ rfl hops

/-- Closed witness for characterPixelSync on a concrete operation sequence. -/
theorem characterPixelSync_witness :
    (([CharOp.moveToAxialPosition { q := 2, r := 1 } 500,
        CharOp.attack,
        CharOp.moveAlongAxialPath [{ q := 1, r := 1 }, { q := 0, r := 1 }] 300,
        CharOp.setAxialPosition { q := 0, r := 0 }]).foldl applyCharOp
      (makeBattleCharacter "hero" { q := 0, r := 0 }
        (createPixelCoordinatesFactory 2 1 800 600)
        { spritesheet := "knight.json", facingConfig := none })).pixelSynced :=
  characterPixelSync "hero" { q := 0, r := 0 } _ _ _ (by decide)

theorem listGet_listSet_self {α β : Type} [DecidableEq α]
    (m : List (α × β)) (k : α) (v : β) : listGet (listSet m k v) k = some v := by
  induction m with
  | nil => simp [listSet, listGet]
  | cons kv rest ih =>
    obtain ⟨k1, v1⟩ := kv
    by_cases h : k1 = k
    · simp [listSet, listGet, h]
    · simp [listSet, listGet, h, ih]

theorem listGet_listSet_ne {α β : Type} [DecidableEq α]
    (m : List (α × β)) (k k' : α) (v : β) (h : k' ≠ k) :
    listGet (listSet m k v) k' = listGet m k' := by
  have hk : k ≠ k' := Ne.symm h
  induction m with
  | nil => simp [listSet, listGet, hk]
  | cons kv rest ih =>
    obtain ⟨k1, v1⟩ := kv
    by_cases h1 : k1 = k
    · subst h1
      simp [listSet, listGet, hk]
    · by_cases h2 : k1 = k'
      · subst h2
        simp [listSet, listGet, h1]
      · simp [listSet, listGet, h1, h2, ih]

/-- C9: isPassable(coord) is false exactly when a terrain definition exists
at that coordinate whose properties carry passable === false, and true when
no terrain definition exists there or the definition's properties omit
passable (or the properties object itself is absent). -/
theorem isPassable_spec (a : BattleArena) (coords : AxialCoordinates) :
    (a.isPassable coords = false ↔
      (∃ terrain, a.getTerrainAt coords = some terrain ∧
        terrain.properties.bind (fun props => props.passable) = some false))
    ∧ (a.getTerrainAt coords = none → a.isPassable coords = true)
    ∧ (∀ terrain, a.getTerrainAt coords = some terrain →
        terrain.properties.bind (fun props => props.passable) ≠ some false →
        a.isPassable coords = true) := by
  unfold BattleArena.isPassable
  cases hterr : a.getTerrainAt coords with
  | none => simp
  | some terrain =>
    cases hprops : terrain.properties with
    | none => simp [hprops]
    | some props =>
      cases hp : props.passable with
      | none => simp [hprops, hp]
      | some b => cases b <;> simp [hprops, hp]

/-- Closed witness for isPassable_spec: a coordinate without a terrain entry
is passable, and one whose entry has passable true is passable. -/
theorem isPassable_spec_witness :
    demoArena.isPassable { q := 1, r := 1 } = true
    ∧ demoArena.isPassable { q := 2, r := 0 } = true :=
  ⟨(isPassable_spec demoArena { q := 1, r := 1 }).2.1 (by decide),
    (isPassable_spec demoArena { q := 2, r := 0 }).2.2
      { type := "forest", spriteId := "hexForest00.png",
        properties := some { passable := some true, blocksProjectiles := none,
                             blocksVision := none, movementCost := none } }
      (by decide) (by decide)⟩

/-- C10: calling addCharacter with a participant whose id equals that of a
currently-live character overwrites the characters-map entry: afterwards
getCharacter(id) returns the newly constructed character, while the
previously stored character object is neither destroyed nor removed from
the characters display container. The tag-freshness hypothesis is the heap
well-formedness invariant that every allocated tag is below nextTag. -/
theorem addCharacter_duplicate_spec (a : BattleArena)
    (participant : BattleParticipant) (tag0 : ℕ)
    (_hlive : listGet a.characters participant.id = some tag0)
    (hfresh : tag0 < a.nextTag)
    (hcontainer : tag0 ∈ a.charactersContainer)
    (hnotdestroyed : tag0 ∉ a.destroyedChars) :
    (a.addCharacter participant).getCharacter participant.id
      = some (makeBattleCharacter participant.id participant.initialPosition
          a.getPixelCoordinates
          (participant.spriteConfig.getD { spritesheet := "", facingConfig := none }))
    ∧ listGet (a.addCharacter participant).characters participant.id
        = some a.nextTag
    ∧ a.nextTag ≠ tag0
    ∧ tag0 ∈ (a.addCharacter participant).charactersContainer
    ∧ tag0 ∉ (a.addCharacter participant).destroyedChars := by
  have hne : a.nextTag ≠ tag0 := by omega
  refine ⟨?_, ?_, hne, ?_, ?_⟩
  · unfold BattleArena.addCharacter BattleArena.getCharacter
    simp only [listGet_listSet_self]
  · unfold BattleArena.addCharacter
    exact listGet_listSet_self _ _ _
  · unfold BattleArena.addCharacter
    simp only [List.mem_append]
    exact Or.inl hcontainer
  · unfold BattleArena.addCharacter
    exact hnotdestroyed

/-- Closed witness for addCharacter_duplicate_spec. -/
theorem addCharacter_duplicate_spec_witness :
    (demoArenaWithHero.addCharacter heroParticipant).getCharacter heroParticipant.id
      = some (makeBattleCharacter heroParticipant.id heroParticipant.initialPosition
          demoArenaWithHero.getPixelCoordinates
          (heroParticipant.spriteConfig.getD { spritesheet := "", facingConfig := none }))
    ∧ listGet (demoArenaWithHero.addCharacter heroParticipant).characters
        heroParticipant.id = some demoArenaWithHero.nextTag
    ∧ demoArenaWithHero.nextTag ≠ 0
    ∧ 0 ∈ (demoArenaWithHero.addCharacter heroParticipant).charactersContainer
    ∧ 0 ∉ (demoArenaWithHero.addCharacter heroParticipant).destroyedChars :=
  addCharacter_duplicate_spec demoArenaWithHero heroParticipant 0
    (by decide) (by decide) (by decide) (by decide)

theorem remainingPositions_none {turns : List BattleTurn} {t : ℕ} (a : ℕ)
    (h : turns[t]? = none) : remainingPositions turns t a = [] := by
  have hlen : turns.length ≤ t := List.getElem?_eq_none_iff.mp h
  rw [remainingPositions, List.drop_eq_nil_of_le hlen]
  rfl

theorem remainingPositions_action {turns : List BattleTurn} {t a : ℕ}
    {turn : BattleTurn} (hturn : turns[t]? = some turn)
    (ha : a < turn.actions.length) :
    remainingPositions turns t a = (t, a) :: remainingPositions turns t (a + 1) := by
  obtain ⟨hlt, hgt⟩ := List.getElem?_eq_some.mp hturn
  have hdrop : turns.drop t = turn :: turns.drop (t + 1) := by
    rw [List.drop_eq_getElem_cons hlt, hgt]
  rw [remainingPositions, remainingPositions, hdrop, remainingFrom, remainingFrom]
  have hlen : turn.actions.length - a = (turn.actions.length - (a + 1)) + 1 := by
    omega
  rw [hlen, List.range_succ_eq_map, List.map_cons, List.map_map]
  simp only [Nat.add_zero, List.cons_append]
  congr 2
  apply List.map_congr_left
  intro j _
  simp only [Function.comp_def, Prod.mk.injEq, true_and]
  omega

theorem remainingPositions_endOfTurn {turns : List BattleTurn} {t a : ℕ}
    {turn : BattleTurn} (hturn : turns[t]? = some turn)
    (ha : turn.actions.length ≤ a) :
    remainingPositions turns t a = remainingPositions turns (t + 1) 0 := by
  obtain ⟨hlt, hgt⟩ := List.getElem?_eq_some.mp hturn
  have hdrop : turns.drop t = turn :: turns.drop (t + 1) := by
    rw [List.drop_eq_getElem_cons hlt, hgt]
  rw [remainingPositions, hdrop, remainingFrom]
  have hlen : turn.actions.length - a = 0 := by omega
  rw [hlen]
  simp only [List.range_zero, List.map_nil, List.nil_append]
  rfl

theorem attemptsOf_append (l1 l2 : List LogEntry) :
    attemptsOf (l1 ++ l2) = attemptsOf l1 ++ attemptsOf l2 := by
  induction l1 with
  | nil => rfl
  | cons e rest ih => cases e <;> simp [attemptsOf, ih]

theorem errorsOf_append (l1 l2 : List LogEntry) :
    errorsOf (l1 ++ l2) = errorsOf l1 ++ errorsOf l2 := by
  induction l1 with
  | nil => rfl
  | cons e rest ih => cases e <;> simp [errorsOf, ih]

theorem executeAction_preserves (o : BattleOrchestrator) (action : BattleAction) :
    (o.executeAction action).1.battleData = o.battleData
    ∧ (o.executeAction action).1.currentTurnIndex = o.currentTurnIndex
    ∧ (o.executeAction action).1.currentActionIndex = o.currentActionIndex
    ∧ (o.executeAction action).1.isPlaying = o.isPlaying
    ∧ (o.executeAction action).1.isPaused = o.isPaused := by
  unfold BattleOrchestrator.executeAction BattleOrchestrator.executeMoveAction
    BattleOrchestrator.movePositionBranch BattleOrchestrator.executeAttackAction
    BattleOrchestrator.executeSkillAction BattleOrchestrator.executeEffectAction
    BattleOrchestrator.faceTowardsTarget
  repeat' split
  all_goals exact ⟨rfl, rfl, rfl, rfl, rfl⟩

theorem executeAction_logs (o : BattleOrchestrator) (action : BattleAction) :
    (o.executeAction action).2 = []
    ∨ (o.executeAction action).2 = [LogEntry.characterNotFound action.actor] := by
  unfold BattleOrchestrator.executeAction
  repeat' split
  all_goals first
    | exact Or.inl rfl
    | exact Or.inr rfl

theorem executeAction_logs_empty_trace (o : BattleOrchestrator)
    (action : BattleAction) :
    attemptsOf (o.executeAction action).2 = []
    ∧ errorsOf (o.executeAction action).2 = [] := by
  rcases executeAction_logs o action with h | h <;> rw [h] <;> exact ⟨rfl, rfl⟩

theorem drain_master (throws : ℕ → ℕ → Bool) (data : BattleData) :
    ∀ (fuel : ℕ) (o : BattleOrchestrator),
      o.battleData = some data → o.isPlaying = true → o.isPaused = false →
      drainFuel data.turns o.currentTurnIndex o.currentActionIndex ≤ fuel →
      attemptsOf (executeNextAction (faultyExec throws) fuel o).2
          = remainingPositions data.turns o.currentTurnIndex o.currentActionIndex
      ∧ errorsOf (executeNextAction (faultyExec throws) fuel o).2
          = (remainingPositions data.turns o.currentTurnIndex
              o.currentActionIndex).filter (fun p => throws p.1 p.2)
      ∧ (executeNextAction (faultyExec throws) fuel o).1.battleData = some data
      ∧ (o.currentTurnIndex < data.turns.length →
          (executeNextAction (faultyExec throws) fuel o).1.currentTurnIndex
              = data.turns.length
          ∧ (executeNextAction (faultyExec throws) fuel o).1.currentActionIndex = 0
          ∧ (executeNextAction (faultyExec throws) fuel o).1.isPlaying = false)
      ∧ (data.turns.length ≤ o.currentTurnIndex →
          (executeNextAction (faultyExec throws) fuel o).1 = o) := by
  intro fuel
  induction fuel with
  | zero =>
    intro o _ _ _ hfuel
    exfalso
    unfold drainFuel at hfuel
    omega
  | succ fuel ih =>
    intro o hdata hplay hpause hfuel
    cases hturn : data.turns[o.currentTurnIndex]? with
    | none =>
      have hstep : drainStep (faultyExec throws) o = ((o, []), false) := by
        unfold drainStep
        rw [hdata]
        simp [hplay, hpause, hturn]
      have hrun : executeNextAction (faultyExec throws) (fuel + 1) o = (o, []) := by
        simp only [executeNextAction]
        rw [hstep]
      have hlen : data.turns.length ≤ o.currentTurnIndex :=
        List.getElem?_eq_none_iff.mp hturn
      rw [hrun]
      refine ⟨?_, ?_, hdata, ?_, fun _ => rfl⟩
      · rw [remainingPositions_none _ hturn]
        rfl
      · rw [remainingPositions_none _ hturn]
        rfl
      · intro h
        omega
    | some currentTurn =>
      have ht : o.currentTurnIndex < data.turns.length :=
        (List.getElem?_eq_some.mp hturn).1
      cases haction : currentTurn.actions[o.currentActionIndex]? with
      | none =>
        have hrp : remainingPositions data.turns o.currentTurnIndex
            o.currentActionIndex
            = remainingPositions data.turns (o.currentTurnIndex + 1) 0 :=
          remainingPositions_endOfTurn hturn (List.getElem?_eq_none_iff.mp haction)
        by_cases hlt : o.currentTurnIndex + 1 < data.turns.length
        · have hstep : drainStep (faultyExec throws) o
              = (({ o with currentTurnIndex := o.currentTurnIndex + 1,
                           currentActionIndex := 0 }, []), true) := by
            unfold drainStep
            rw [hdata]
            simp [hplay, hpause, hturn, haction, hlt]
          have hrun : executeNextAction (faultyExec throws) (fuel + 1) o
              = ((executeNextAction (faultyExec throws) fuel
                    { o with currentTurnIndex := o.currentTurnIndex + 1,
                             currentActionIndex := 0 }).1,
                 [] ++ (executeNextAction (faultyExec throws) fuel
                    { o with currentTurnIndex := o.currentTurnIndex + 1,
                             currentActionIndex := 0 }).2) := by
            simp only [executeNextAction]
            rw [hstep]
          have hfuel' : drainFuel data.turns (o.currentTurnIndex + 1) 0 ≤ fuel := by
            unfold drainFuel at hfuel ⊢
            rw [hrp] at hfuel
            omega
          have ihres := ih { o with currentTurnIndex := o.currentTurnIndex + 1,
                                    currentActionIndex := 0 }
            hdata hplay hpause hfuel'
          obtain ⟨iha, ihe, ihd, ihl, _⟩ := ihres
          rw [hrun]
          refine ⟨?_, ?_, ihd, fun _ => ihl hlt, ?_⟩
          · rw [List.nil_append, iha, hrp]
          · rw [List.nil_append, ihe, hrp]
          · intro h
            omega
        · have hstep : drainStep (faultyExec throws) o
              = (({ o with currentTurnIndex := o.currentTurnIndex + 1,
                           currentActionIndex := 0,
                           isPlaying := false }, []), false) := by
            unfold drainStep
            rw [hdata]
            simp [hplay, hpause, hturn, haction, hlt]
          have hrun : executeNextAction (faultyExec throws) (fuel + 1) o
              = ({ o with currentTurnIndex := o.currentTurnIndex + 1,
                          currentActionIndex := 0,
                          isPlaying := false }, []) := by
            simp only [executeNextAction]
            rw [hstep]
          have hnone : data.turns[o.currentTurnIndex + 1]? = none :=
            List.getElem?_eq_none_iff.mpr (by omega)
          rw [hrun]
          refine ⟨?_, ?_, hdata, ?_, ?_⟩
          · rw [hrp, remainingPositions_none 0 hnone]
            rfl
          · rw [hrp, remainingPositions_none 0 hnone]
            rfl
          · intro _
            refine ⟨?_, rfl, rfl⟩
            show o.currentTurnIndex + 1 = data.turns.length
            omega
          · intro h
            omega
      | some currentAction =>
        have ha : o.currentActionIndex < currentTurn.actions.length :=
          (List.getElem?_eq_some.mp haction).1
        have hrp : remainingPositions data.turns o.currentTurnIndex
            o.currentActionIndex
            = (o.currentTurnIndex, o.currentActionIndex)
                :: remainingPositions data.turns o.currentTurnIndex
                    (o.currentActionIndex + 1) :=
          remainingPositions_action hturn ha
        cases hthrow : throws o.currentTurnIndex o.currentActionIndex with
        | true =>
          have hstep : drainStep (faultyExec throws) o
              = (({ o with currentActionIndex := o.currentActionIndex + 1 },
                  [LogEntry.attempt o.currentTurnIndex o.currentActionIndex,
                   LogEntry.actionError o.currentTurnIndex o.currentActionIndex]),
                 true) := by
            unfold drainStep
            simp [hdata, hplay, hpause, hturn, haction, faultyExec, hthrow]
          have hrun : executeNextAction (faultyExec throws) (fuel + 1) o
              = ((executeNextAction (faultyExec throws) fuel
                    { o with currentActionIndex := o.currentActionIndex + 1 }).1,
                 [LogEntry.attempt o.currentTurnIndex o.currentActionIndex,
                  LogEntry.actionError o.currentTurnIndex o.currentActionIndex]
                   ++ (executeNextAction (faultyExec throws) fuel
                    { o with currentActionIndex := o.currentActionIndex + 1 }).2) := by
            simp only [executeNextAction]
            rw [hstep]
          have hfuel' : drainFuel data.turns o.currentTurnIndex
              (o.currentActionIndex + 1) ≤ fuel := by
            unfold drainFuel at hfuel ⊢
            rw [hrp] at hfuel
            simp only [List.length_cons] at hfuel
            omega
          have ihres := ih { o with currentActionIndex := o.currentActionIndex + 1 }
            hdata hplay hpause hfuel'
          obtain ⟨iha, ihe, ihd, ihl, _⟩ := ihres
          rw [hrun]
          refine ⟨?_, ?_, ihd, fun _ => ihl ht, ?_⟩
          · rw [attemptsOf_append, iha, hrp]
            rfl
          · rw [errorsOf_append, ihe, hrp, List.filter_cons]
            simp [hthrow, errorsOf]
          · intro h
            omega
        | false =>
          obtain ⟨hpd, hpt, hpa, hpp, hpps⟩ :=
            executeAction_preserves o currentAction
          obtain ⟨hea, hee⟩ := executeAction_logs_empty_trace o currentAction
          have hstep : drainStep (faultyExec throws) o
              = (({ (o.executeAction currentAction).1 with
                    currentActionIndex :=
                      (o.executeAction currentAction).1.currentActionIndex + 1 },
                  LogEntry.attempt o.currentTurnIndex o.currentActionIndex
                    :: (o.executeAction currentAction).2),
                 true) := by
            unfold drainStep
            simp [hdata, hplay, hpause, hturn, haction, faultyExec, hthrow, hpp, hpps]
          have hrun : executeNextAction (faultyExec throws) (fuel + 1) o
              = ((executeNextAction (faultyExec throws) fuel
                    { (o.executeAction currentAction).1 with
                      currentActionIndex :=
                        (o.executeAction currentAction).1.currentActionIndex + 1 }).1,
                 (LogEntry.attempt o.currentTurnIndex o.currentActionIndex
                    :: (o.executeAction currentAction).2)
                   ++ (executeNextAction (faultyExec throws) fuel
                    { (o.executeAction currentAction).1 with
                      currentActionIndex :=
                        (o.executeAction currentAction).1.currentActionIndex + 1 }).2) := by
            simp only [executeNextAction]
            rw [hstep]
          have hfuel' : drainFuel data.turns
              (o.executeAction currentAction).1.currentTurnIndex
              ((o.executeAction currentAction).1.currentActionIndex + 1) ≤ fuel := by
            rw [hpt, hpa]
            unfold drainFuel at hfuel ⊢
            rw [hrp] at hfuel
            simp only [List.length_cons] at hfuel
            omega
          have ihres := ih
            { (o.executeAction currentAction).1 with
              currentActionIndex :=
                (o.executeAction currentAction).1.currentActionIndex + 1 }
            (hpd.trans hdata) (hpp.trans hplay) (hpps.trans hpause) hfuel'
          obtain ⟨iha, ihe, ihd, ihl, _⟩ := ihres
          rw [hrun]
          simp only [hpt, hpa] at iha ihe ihd ihl ⊢
          refine ⟨?_, ?_, ihd, fun _ => ihl ht, ?_⟩
          · rw [attemptsOf_append]
            simp only [attemptsOf]
            rw [hea, iha, hrp]
            rfl
          · rw [errorsOf_append]
            simp only [errorsOf]
            rw [hee, ihe, hrp, List.filter_cons]
            simp [hthrow]
          · intro h
            omega

theorem remainingFrom_bounds :
    ∀ (l : List BattleTurn) (t a : ℕ), ∀ p ∈ remainingFrom l t a,
      t ≤ p.1 ∧ (p.1 = t → a ≤ p.2) := by
  intro l
  induction l with
  | nil =>
    intro t a p hp
    simp [remainingFrom] at hp
  | cons turn rest ih =>
    intro t a p hp
    rw [remainingFrom, List.mem_append] at hp
    rcases hp with hp | hp
    · obtain ⟨j, _, rfl⟩ := List.mem_map.mp hp
      exact ⟨le_refl t, fun _ => Nat.le_add_right a j⟩
    · obtain ⟨hb1, _⟩ := ih (t + 1) 0 p hp
      exact ⟨by omega, fun h => by omega⟩

theorem remainingFrom_pairwise :
    ∀ (l : List BattleTurn) (t a : ℕ), List.Pairwise lexLt (remainingFrom l t a) := by
  intro l
  induction l with
  | nil =>
    intro t a
    exact List.Pairwise.nil
  | cons turn rest ih =>
    intro t a
    rw [remainingFrom, List.pairwise_append]
    refine ⟨?_, ih (t + 1) 0, ?_⟩
    · refine List.Pairwise.map _ ?_ (List.pairwise_lt_range _)
      intro i j hij
      exact Or.inr ⟨rfl, by omega⟩
    · intro p hp q hq
      obtain ⟨j, _, rfl⟩ := List.mem_map.mp hp
      obtain ⟨hb1, _⟩ := remainingFrom_bounds rest (t + 1) 0 q hq
      exact Or.inl (by omega)

theorem remainingFrom_actionAt (turns : List BattleTurn) :
    ∀ (l : List BattleTurn) (t a : ℕ), l = turns.drop t →
      ∀ p ∈ remainingFrom l t a, (actionAt turns p.1 p.2).isSome = true := by
  intro l
  induction l with
  | nil =>
    intro t a _ p hp
    simp [remainingFrom] at hp
  | cons turn rest ih =>
    intro t a hl p hp
    have hturn : turns[t]? = some turn := by
      have h0 : (turns.drop t)[0]? = some turn := by rw [← hl]; simp
      rw [List.getElem?_drop] at h0
      simpa using h0
    have hrest : rest = turns.drop (t + 1) := by
      have := congrArg List.tail hl
      simpa [List.tail_drop] using this
    rw [remainingFrom, List.mem_append] at hp
    rcases hp with hp | hp
    · obtain ⟨j, hj, rfl⟩ := List.mem_map.mp hp
      rw [List.mem_range] at hj
      show (actionAt turns t (a + j)).isSome = true
      unfold actionAt
      rw [hturn]
      have hj2 : a + j < turn.actions.length := by omega
      show (turn.actions[a + j]?).isSome = true
      rw [List.getElem?_eq_getElem hj2]
      rfl
    · exact ih (t + 1) 0 hrest p hp

theorem remainingPositions_pairwise (turns : List BattleTurn) (t a : ℕ) :
    List.Pairwise lexLt (remainingPositions turns t a) :=
  remainingFrom_pairwise _ t a

theorem remainingPositions_actionAt (turns : List BattleTurn) (t a : ℕ) :
    ∀ p ∈ remainingPositions turns t a, (actionAt turns p.1 p.2).isSome = true :=
  remainingFrom_actionAt turns (turns.drop t) t a rfl

theorem executeAction_missingActor (o : BattleOrchestrator) (action : BattleAction)
    (h : o.arena.getCharacter action.actor = none) :
    o.executeAction action = (o, [LogEntry.characterNotFound action.actor]) := by
  unfold BattleOrchestrator.executeAction
  rw [h]

/-- C5: during playback, a throwing action or a missing-actor action never
halts the drain loop. For every fault oracle and every ready playing state:
the attempt trace equals exactly the list of remaining cursor positions (so
the cursor advances past every failed or skipped action and all subsequent
valid actions are still dispatched, in order); every faulted position is
logged with an actionError console entry; an action whose actor id has no
live character returns cleanly from executeAction after logging the
characterNotFound console warning (the drain then advances the cursor like
any successful action, per the trace equality); and the drain still reaches
the finished state. -/
theorem drain_resilience_spec (throws : ℕ → ℕ → Bool) (data : BattleData)
    (o : BattleOrchestrator) (fuel : ℕ)
    (hdata : o.battleData = some data) (hplay : o.isPlaying = true)
    (hpause : o.isPaused = false)
    (hfuel : drainFuel data.turns o.currentTurnIndex o.currentActionIndex ≤ fuel) :
    attemptsOf (executeNextAction (faultyExec throws) fuel o).2
        = remainingPositions data.turns o.currentTurnIndex o.currentActionIndex
    ∧ errorsOf (executeNextAction (faultyExec throws) fuel o).2
        = (remainingPositions data.turns o.currentTurnIndex
            o.currentActionIndex).filter (fun p => throws p.1 p.2)
    ∧ (∀ action, o.arena.getCharacter action.actor = none →
        o.executeAction action = (o, [LogEntry.characterNotFound action.actor]))
    ∧ (o.currentTurnIndex < data.turns.length →
        (executeNextAction (faultyExec throws) fuel o).1.currentTurnIndex
            = data.turns.length
        ∧ (executeNextAction (faultyExec throws) fuel o).1.isPlaying = false) := by
  obtain ⟨h1, h2, _, h4, _⟩ := drain_master throws data fuel o hdata hplay hpause hfuel
  exact ⟨h1, h2, fun action h => executeAction_missingActor o action h,
    fun ht => ⟨(h4 ht).1, (h4 ht).2.2⟩⟩

/-- C6: while playing, the cursor trace of the drain is strictly increasing
in lexicographic order (hence monotonically non-decreasing and never
revisiting a consumed action), every traced position addresses an action
that exists in the timeline (an unconsumed action, by the strict order),
and when the cursor passes the last turn the machine transitions to the
terminal finished state: turnIndex equals the turn count, actionIndex is 0,
isFinished() is true and playing is false. -/
theorem drain_cursor_spec (throws : ℕ → ℕ → Bool) (data : BattleData)
    (o : BattleOrchestrator) (fuel : ℕ)
    (hdata : o.battleData = some data) (hplay : o.isPlaying = true)
    (hpause : o.isPaused = false)
    (hfuel : drainFuel data.turns o.currentTurnIndex o.currentActionIndex ≤ fuel) :
    List.Pairwise lexLt
        (attemptsOf (executeNextAction (faultyExec throws) fuel o).2)
    ∧ (∀ p ∈ attemptsOf (executeNextAction (faultyExec throws) fuel o).2,
        (actionAt data.turns p.1 p.2).isSome = true)
    ∧ (o.currentTurnIndex < data.turns.length →
        (executeNextAction (faultyExec throws) fuel o).1.currentTurnIndex
            = data.turns.length
        ∧ (executeNextAction (faultyExec throws) fuel o).1.currentActionIndex = 0
        ∧ (executeNextAction (faultyExec throws) fuel o).1.isPlaying = false
        ∧ (executeNextAction (faultyExec throws) fuel o).1.isFinished = true) := by
  obtain ⟨h1, _, h3, h4, _⟩ := drain_master throws data fuel o hdata hplay hpause hfuel
  rw [h1]
  refine ⟨remainingPositions_pairwise _ _ _, remainingPositions_actionAt _ _ _, ?_⟩
  intro ht
  obtain ⟨hf1, hf2, hf3⟩ := h4 ht
  refine ⟨hf1, hf2, hf3, ?_⟩
  unfold BattleOrchestrator.isFinished BattleOrchestrator.getTotalTurns
  rw [h3, hf1]
  simp

/-- Closed witness for drain_resilience_spec: the demo orchestrator with an
oracle that faults the second action. -/
theorem drain_resilience_spec_witness :
    attemptsOf (executeNextAction
        (faultyExec (fun _ a => a == 1)) 8 demoPlayingOrch).2
      = remainingPositions demoBattleData.turns
          demoPlayingOrch.currentTurnIndex demoPlayingOrch.currentActionIndex
    ∧ errorsOf (executeNextAction
        (faultyExec (fun _ a => a == 1)) 8 demoPlayingOrch).2
      = (remainingPositions demoBattleData.turns
          demoPlayingOrch.currentTurnIndex
          demoPlayingOrch.currentActionIndex).filter
            (fun p => (fun _ a => a == 1) p.1 p.2)
    ∧ (∀ action, demoPlayingOrch.arena.getCharacter action.actor = none →
        demoPlayingOrch.executeAction action
          = (demoPlayingOrch, [LogEntry.characterNotFound action.actor]))
    ∧ (demoPlayingOrch.currentTurnIndex < demoBattleData.turns.length →
        (executeNextAction (faultyExec (fun _ a => a == 1))
            8 demoPlayingOrch).1.currentTurnIndex
          = demoBattleData.turns.length
        ∧ (executeNextAction (faultyExec (fun _ a => a == 1))
            8 demoPlayingOrch).1.isPlaying = false) :=
  drain_resilience_spec (fun _ a => a == 1) demoBattleData demoPlayingOrch 8
    rfl rfl rfl (by decide)

/-- Closed witness for drain_cursor_spec on the demo orchestrator. -/
theorem drain_cursor_spec_witness :
    List.Pairwise lexLt (attemptsOf (executeNextAction
        (faultyExec (fun _ _ => false)) 8 demoPlayingOrch).2)
    ∧ (∀ p ∈ attemptsOf (executeNextAction
        (faultyExec (fun _ _ => false)) 8 demoPlayingOrch).2,
        (actionAt demoBattleData.turns p.1 p.2).isSome = true)
    ∧ (demoPlayingOrch.currentTurnIndex < demoBattleData.turns.length →
        (executeNextAction (faultyExec (fun _ _ => false))
            8 demoPlayingOrch).1.currentTurnIndex = demoBattleData.turns.length
        ∧ (executeNextAction (faultyExec (fun _ _ => false))
            8 demoPlayingOrch).1.currentActionIndex = 0
        ∧ (executeNextAction (faultyExec (fun _ _ => false))
            8 demoPlayingOrch).1.isPlaying = false
        ∧ (executeNextAction (faultyExec (fun _ _ => false))
            8 demoPlayingOrch).1.isFinished = true) :=
  drain_cursor_spec (fun _ _ => false) demoBattleData demoPlayingOrch 8
    rfl rfl rfl (by decide)

theorem cursorInv_zero (o : BattleOrchestrator)
    (h1 : o.currentTurnIndex = 0) (h2 : o.currentActionIndex = 0) :
    cursorInv o := by
  intro data _
  rw [h1, h2]
  exact ⟨Nat.zero_le _, fun _ _ => Nat.zero_le _, fun _ => rfl⟩

theorem cursorInv_drainStep (throws : ℕ → ℕ → Bool) (o : BattleOrchestrator)
    (hinv : cursorInv o) : cursorInv (drainStep (faultyExec throws) o).1.1 := by
  cases hod : o.battleData with
  | none =>
    have hstep : drainStep (faultyExec throws) o = ((o, []), false) := by
      unfold drainStep
      rw [hod]
    rw [hstep]
    exact hinv
  | some data =>
    obtain ⟨h1, h2, h3⟩ := hinv data hod
    by_cases hplay : (!o.isPlaying || o.isPaused) = true
    · have hstep : drainStep (faultyExec throws) o = ((o, []), false) := by
        unfold drainStep
        rw [hod]
        simp [hplay]
      rw [hstep]
      exact hinv
    · have hplay' : (!o.isPlaying || o.isPaused) = false := by
        revert hplay
        cases h : (!o.isPlaying || o.isPaused) <;> simp
      cases hturn : data.turns[o.currentTurnIndex]? with
      | none =>
        have hstep : drainStep (faultyExec throws) o = ((o, []), false) := by
          unfold drainStep
          rw [hod]
          simp [hplay', hturn]
        rw [hstep]
        exact hinv
      | some turn =>
        have ht : o.currentTurnIndex < data.turns.length :=
          (List.getElem?_eq_some.mp hturn).1
        cases haction : turn.actions[o.currentActionIndex]? with
        | none =>
          by_cases hlt : o.currentTurnIndex + 1 < data.turns.length
          · have hstep : (drainStep (faultyExec throws) o).1.1
                = { o with currentTurnIndex := o.currentTurnIndex + 1,
                           currentActionIndex := 0 } := by
              unfold drainStep
              rw [hod]
              simp [hplay', hturn, haction, hlt]
            rw [hstep]
            intro d hd
            have hde : data = d := by
              have : some data = some d := hod.symm.trans hd
              exact Option.some.inj this
            subst hde
            refine ⟨?_, fun _ _ => Nat.zero_le _, fun _ => rfl⟩
            show o.currentTurnIndex + 1 ≤ data.turns.length
            omega
          · have hstep : (drainStep (faultyExec throws) o).1.1
                = { o with currentTurnIndex := o.currentTurnIndex + 1,
                           currentActionIndex := 0, isPlaying := false } := by
              unfold drainStep
              rw [hod]
              simp [hplay', hturn, haction, hlt]
            rw [hstep]
            intro d hd
            have hde : data = d := by
              have : some data = some d := hod.symm.trans hd
              exact Option.some.inj this
            subst hde
            refine ⟨?_, fun _ _ => Nat.zero_le _, fun _ => rfl⟩
            show o.currentTurnIndex + 1 ≤ data.turns.length
            omega
        | some action =>
          have ha : o.currentActionIndex < turn.actions.length :=
            (List.getElem?_eq_some.mp haction).1
          cases hthrow : throws o.currentTurnIndex o.currentActionIndex with
          | true =>
            have hstep : (drainStep (faultyExec throws) o).1.1
                = { o with currentActionIndex := o.currentActionIndex + 1 } := by
              unfold drainStep
              simp [hod, hplay', hturn, haction, faultyExec, hthrow]
            rw [hstep]
            intro d hd
            have hde : data = d := by
              have : some data = some d := hod.symm.trans hd
              exact Option.some.inj this
            subst hde
            refine ⟨h1, ?_, ?_⟩
            · intro turn' hturn'
              have : turn = turn' := Option.some.inj (hturn.symm.trans hturn')
              subst this
              show o.currentActionIndex + 1 ≤ turn.actions.length
              omega
            · intro hnone
              rw [hturn] at hnone
              cases hnone
          | false =>
            obtain ⟨hpd, hpt, hpa, _, _⟩ := executeAction_preserves o action
            have hstep : (drainStep (faultyExec throws) o).1.1
                = { (o.executeAction action).1 with
                    currentActionIndex :=
                      (o.executeAction action).1.currentActionIndex + 1 } := by
              unfold drainStep
              rw [hod]
              simp [hplay', hturn, haction, faultyExec, hthrow]
            rw [hstep]
            intro d hd
            dsimp only at hd ⊢
            rw [hpd] at hd
            rw [hpt, hpa]
            have hde : data = d := Option.some.inj (hod.symm.trans hd)
            subst hde
            refine ⟨h1, ?_, ?_⟩
            · intro turn' hturn'
              have he : turn = turn' := Option.some.inj (hturn.symm.trans hturn')
              subst he
              omega
            · intro hnone
              rw [hturn] at hnone
              cases hnone

theorem cursorInv_reachable (o : BattleOrchestrator) (h : Reachable o) :
    cursorInv o := by
  induction h with
  | make arena => exact cursorInv_zero _ rfl rfl
  | setBattleData o data _ _ => exact cursorInv_zero _ rfl rfl
  | setPlaying o playing _ ih =>
    cases hod : o.battleData with
    | none =>
      have hstep : o.setPlaying playing = o := by
        unfold BattleOrchestrator.setPlaying
        rw [hod]
      rw [hstep]
      exact ih
    | some d =>
      have hstep : o.setPlaying playing
          = { o with isPlaying := playing, isPaused := !playing } := by
        unfold BattleOrchestrator.setPlaying
        rw [hod]
      rw [hstep]
      intro d' hd'
      exact ih d' hd'
  | reset o _ _ => exact cursorInv_zero _ rfl rfl
  | destroy o _ _ =>
    intro d hd
    cases hd
  | drain o throws _ ih => exact cursorInv_drainStep throws o ih

theorem completed_le_total (data : BattleData) (o : BattleOrchestrator)
    (hdata : o.battleData = some data) (hinv : cursorInv o) :
    completedActionCount data o ≤ totalActionCount data := by
  obtain ⟨h1, h2, h3⟩ := hinv data hdata
  have hsplit : totalActionCount data
      = ((data.turns.take o.currentTurnIndex).map
          (fun turn => turn.actions.length)).sum
        + ((data.turns.drop o.currentTurnIndex).map
          (fun turn => turn.actions.length)).sum := by
    unfold totalActionCount
    conv_lhs => rw [← List.take_append_drop o.currentTurnIndex data.turns]
    rw [List.map_append, List.sum_append]
  cases hturn : data.turns[o.currentTurnIndex]? with
  | none =>
    have ha := h3 hturn
    unfold completedActionCount
    omega
  | some turn =>
    have ha := h2 turn hturn
    obtain ⟨hlt, hgt⟩ := List.getElem?_eq_some.mp hturn
    have hdrop : data.turns.drop o.currentTurnIndex
        = turn :: data.turns.drop (o.currentTurnIndex + 1) := by
      rw [List.drop_eq_getElem_cons hlt, hgt]
    rw [hdrop] at hsplit
    unfold completedActionCount
    rw [List.map_cons, List.sum_cons] at hsplit
    omega

/-- C7 counterexample: the frozen claim states getProgress() always lies
in [0, 1] and equals completed/total, but the state reached by loading a
timeline whose single turn has no actions (total action count 0, turns
array non-empty) makes the source compute Math.min(0/0, 1) = NaN, which is
neither 0 nor any value in [0, 1]: getProgress is none (NaN), not some
rational in [0, 1]. -/
theorem getProgress_nan_counterexample :
    Reachable ((BattleOrchestrator.make demoArena).setBattleData
      emptyActionsBattleData)
    ∧ ((BattleOrchestrator.make demoArena).setBattleData
        emptyActionsBattleData).getProgress = none
    ∧ ¬ ∃ q : ℚ, ((BattleOrchestrator.make demoArena).setBattleData
        emptyActionsBattleData).getProgress = some q ∧ 0 ≤ q ∧ q ≤ 1 := by
  refine ⟨Reachable.setBattleData _ _ (Reachable.make demoArena), rfl, ?_⟩
  rintro ⟨q, hq, -⟩
  have h0 : ((BattleOrchestrator.make demoArena).setBattleData
      emptyActionsBattleData).getProgress = none := rfl
  rw [h0] at hq
  cases hq

/-- C7 amended: for every reachable orchestrator state, getProgress()
equals the count of actions before the cursor divided by the total action
count and lies in [0, 1] whenever the loaded timeline has a nonzero total
action count; it is 0 without battle data or with an empty turns array;
and in the remaining reachable corner - a non-empty turns array whose
total action count is 0 - the source divides 0 by 0 and Math.min(NaN, 1)
yields NaN (none in the model), not a value in [0, 1]. -/
theorem getProgress_spec (o : BattleOrchestrator) (hre : Reachable o) :
    (∀ data, o.battleData = some data → data.turns ≠ [] →
        totalActionCount data ≠ 0 →
        o.getProgress
            = some ((completedActionCount data o : ℚ) / (totalActionCount data : ℚ))
        ∧ 0 ≤ (completedActionCount data o : ℚ) / (totalActionCount data : ℚ)
        ∧ (completedActionCount data o : ℚ) / (totalActionCount data : ℚ) ≤ 1)
    ∧ (o.battleData = none → o.getProgress = some 0)
    ∧ (∀ data, o.battleData = some data → data.turns = [] →
        o.getProgress = some 0)
    ∧ (∀ data, o.battleData = some data → data.turns ≠ [] →
        totalActionCount data = 0 → o.getProgress = none) := by
  have hinv := cursorInv_reachable o hre
  cases hod : o.battleData with
  | none =>
    have hp : o.getProgress = some 0 := by
      unfold BattleOrchestrator.getProgress
      rw [hod]
    refine ⟨?_, fun _ => hp, ?_, ?_⟩
    · intro data hdata
      exact absurd hdata (by simp)
    · intro data hdata
      exact absurd hdata (by simp)
    · intro data hdata
      exact absurd hdata (by simp)
  | some data =>
    by_cases hemp : data.turns.length = 0
    · have hp : o.getProgress = some 0 := by
        unfold BattleOrchestrator.getProgress
        rw [hod]
        dsimp only
        rw [if_pos hemp]
      refine ⟨?_, ?_, fun _ _ _ => hp, ?_⟩
      · intro data' hdata' hne _
        have hde : data = data' := Option.some.inj hdata'
        subst hde
        exact absurd (List.length_eq_zero.mp hemp) hne
      · intro hnone
        exact absurd hnone (by simp)
      · intro data' hdata' hne _
        have hde : data = data' := Option.some.inj hdata'
        subst hde
        exact absurd (List.length_eq_zero.mp hemp) hne
    · have hle := completed_le_total data o hod hinv
      by_cases htot : totalActionCount data = 0
      · have hc : completedActionCount data o = 0 := by omega
        have hp : o.getProgress = none := by
          unfold BattleOrchestrator.getProgress
          rw [hod]
          dsimp only
          rw [if_neg hemp, if_pos htot, if_pos hc]
        refine ⟨?_, ?_, ?_, fun _ _ _ _ => hp⟩
        · intro data' hdata' _ htot'
          have hde : data = data' := Option.some.inj hdata'
          subst hde
          exact absurd htot htot'
        · intro hnone
          exact absurd hnone (by simp)
        · intro data' hdata' hemp'
          have hde : data = data' := Option.some.inj hdata'
          subst hde
          rw [hemp'] at hemp
          exact absurd rfl hemp
      · have hdivle : (completedActionCount data o : ℚ)
            / (totalActionCount data : ℚ) ≤ 1 := by
          rw [div_le_one (by exact_mod_cast Nat.pos_of_ne_zero htot)]
          exact_mod_cast hle
        have hdivnn : 0 ≤ (completedActionCount data o : ℚ)
            / (totalActionCount data : ℚ) :=
          div_nonneg (by positivity) (by positivity)
        have hp : o.getProgress
            = some ((completedActionCount data o : ℚ)
                / (totalActionCount data : ℚ)) := by
          unfold BattleOrchestrator.getProgress
          rw [hod]
          dsimp only
          rw [if_neg hemp, if_neg htot, min_eq_left hdivle]
        refine ⟨?_, ?_, ?_, ?_⟩
        · intro data' hdata' _ _
          have hde : data = data' := Option.some.inj hdata'
          subst hde
          exact ⟨hp, hdivnn, hdivle⟩
        · intro hnone
          exact absurd hnone (by simp)
        · intro data' hdata' hemp'
          have hde : data = data' := Option.some.inj hdata'
          subst hde
          rw [hemp'] at hemp
          exact absurd rfl hemp
        · intro data' hdata' _ htot'
          have hde : data = data' := Option.some.inj hdata'
          subst hde
          exact absurd htot' htot

/-- Closed witness for getProgress_spec at a concrete reachable state. -/
theorem getProgress_spec_witness :
    (∀ data, demoPlayingOrch.battleData = some data → data.turns ≠ [] →
        totalActionCount data ≠ 0 →
        demoPlayingOrch.getProgress
            = some ((completedActionCount data demoPlayingOrch : ℚ)
                / (totalActionCount data : ℚ))
        ∧ 0 ≤ (completedActionCount data demoPlayingOrch : ℚ)
            / (totalActionCount data : ℚ)
        ∧ (completedActionCount data demoPlayingOrch : ℚ)
            / (totalActionCount data : ℚ) ≤ 1)
    ∧ (demoPlayingOrch.battleData = none → demoPlayingOrch.getProgress = some 0)
    ∧ (∀ data, demoPlayingOrch.battleData = some data → data.turns = [] →
        demoPlayingOrch.getProgress = some 0)
    ∧ (∀ data, demoPlayingOrch.battleData = some data → data.turns ≠ [] →
        totalActionCount data = 0 → demoPlayingOrch.getProgress = none) :=
  getProgress_spec demoPlayingOrch
    (Reachable.setPlaying _ true
      (Reachable.setBattleData _ demoBattleData
        (Reachable.make demoArenaWithHero)))

theorem listGet_foldl_seed_not_mem (ps : List BattleParticipant)
    (m : List (String × AxialCoordinates)) (k : String)
    (h : ∀ p ∈ ps, p.id ≠ k) :
    listGet (ps.foldl (fun acc p => listSet acc p.id p.initialPosition) m) k
      = listGet m k := by
  induction ps generalizing m with
  | nil => rfl
  | cons q rest ih =>
    rw [List.foldl_cons, ih _ (fun p hp => h p (List.mem_cons_of_mem q hp)),
      listGet_listSet_ne]
    exact fun hk => h q (List.mem_cons_self q rest) hk.symm

theorem listGet_foldl_seed_mem (ps : List BattleParticipant)
    (hnodup : (ps.map (fun p => p.id)).Nodup) :
    ∀ (m : List (String × AxialCoordinates)), ∀ p ∈ ps,
      listGet (ps.foldl (fun acc p => listSet acc p.id p.initialPosition) m) p.id
        = some p.initialPosition := by
  induction ps with
  | nil =>
    intro m p hp
    cases hp
  | cons q rest ih =>
    intro m p hp
    rw [List.map_cons, List.nodup_cons] at hnodup
    obtain ⟨hq, hrest⟩ := hnodup
    rcases List.mem_cons.mp hp with rfl | hp'
    · rw [List.foldl_cons, listGet_foldl_seed_not_mem]
      · exact listGet_listSet_self m p.id p.initialPosition
      · intro p' hp' he
        exact hq (he ▸ List.mem_map_of_mem (fun r => r.id) hp')
    · rw [List.foldl_cons]
      exact ih hrest _ p hp'

theorem listGet_foldl_seed_origin (ps : List BattleParticipant) :
    ∀ (m : List (String × AxialCoordinates)) (k : String)
      (pos : AxialCoordinates),
      listGet (ps.foldl (fun acc p => listSet acc p.id p.initialPosition) m) k
          = some pos →
        (∃ p ∈ ps, p.id = k ∧ pos = p.initialPosition) ∨ listGet m k = some pos := by
  induction ps with
  | nil =>
    intro m k pos h
    exact Or.inr h
  | cons q rest ih =>
    intro m k pos h
    rw [List.foldl_cons] at h
    rcases ih _ k pos h with ⟨p, hp, he, hpos⟩ | hbase
    · exact Or.inl ⟨p, List.mem_cons_of_mem q hp, he, hpos⟩
    · by_cases hk : q.id = k
      · subst hk
        rw [listGet_listSet_self] at hbase
        exact Or.inl ⟨q, List.mem_cons_self q rest, rfl,
          (Option.some.inj hbase).symm⟩
      · rw [listGet_listSet_ne _ _ _ _ (fun he => hk he.symm)] at hbase
        exact Or.inr hbase

/-- C8: setBattleData(data) resets the cursor to (0,0), stops playback, and
seeds the per-character position cache with exactly each participant's
initialPosition (for unique participant ids every participant is present;
and nothing but participant initial positions is in the cache); and after a
completed move action on a live actor the cache entry for the actor is the
move's final coordinate: the last element of path when a usable (non-empty)
path is present, otherwise position. -/
theorem setBattleData_moveCache_spec (o : BattleOrchestrator)
    (data : BattleData) :
    ((o.setBattleData data).currentTurnIndex = 0
      ∧ (o.setBattleData data).currentActionIndex = 0
      ∧ (o.setBattleData data).isPlaying = false
      ∧ (o.setBattleData data).isPaused = false)
    ∧ ((data.participants.map (fun p => p.id)).Nodup →
        ∀ p ∈ data.participants,
          listGet (o.setBattleData data).characterPositions p.id
            = some p.initialPosition)
    ∧ (∀ id pos,
        listGet (o.setBattleData data).characterPositions id = some pos →
          ∃ p ∈ data.participants, p.id = id ∧ pos = p.initialPosition)
    ∧ (∀ (o' : BattleOrchestrator) (action : BattleAction)
        (c : BattleCharacter),
        o'.arena.getCharacter action.actor = some c → action.type = .move →
          (∀ path lastPos, action.path = some path →
            path.getLast? = some lastPos →
            listGet (o'.executeAction action).1.characterPositions action.actor
              = some lastPos)
          ∧ (∀ pos, (action.path = none ∨ action.path = some []) →
              action.position = some pos →
              listGet (o'.executeAction action).1.characterPositions action.actor
                = some pos)) := by
  refine ⟨⟨rfl, rfl, rfl, rfl⟩, ?_, ?_, ?_⟩
  · intro hnodup p hp
    exact listGet_foldl_seed_mem data.participants hnodup [] p hp
  · intro id pos h
    rcases listGet_foldl_seed_origin data.participants [] id pos h with hfound | hbase
    · exact hfound
    · cases hbase
  · intro o' action c hchar htype
    constructor
    · intro path lastPos hpath hlast
      unfold BattleOrchestrator.executeAction
      rw [hchar, htype]
      show listGet (o'.executeMoveAction action).characterPositions action.actor
        = some lastPos
      unfold BattleOrchestrator.executeMoveAction
      rw [hpath]
      dsimp only
      rw [hlast]
      exact listGet_listSet_self _ _ _
    · intro pos hpath hpos
      unfold BattleOrchestrator.executeAction
      rw [hchar, htype]
      show listGet (o'.executeMoveAction action).characterPositions action.actor
        = some pos
      unfold BattleOrchestrator.executeMoveAction
      rcases hpath with hpath | hpath
      · rw [hpath]
        unfold BattleOrchestrator.movePositionBranch
        rw [hpos]
        exact listGet_listSet_self _ _ _
      · rw [hpath]
        show listGet (o'.movePositionBranch action).characterPositions action.actor
          = some pos
        unfold BattleOrchestrator.movePositionBranch
        rw [hpos]
        exact listGet_listSet_self _ _ _

/-- Closed witness for setBattleData_moveCache_spec on the demo data: the
seeded cache holds hero's initial position, and a completed path move
caches the path's last waypoint. -/
theorem setBattleData_moveCache_spec_witness :
    listGet ((BattleOrchestrator.make demoArena).setBattleData
        demoBattleData).characterPositions heroParticipant.id
      = some heroParticipant.initialPosition
    ∧ listGet (demoPlayingOrch.executeAction demoMoveAction).1.characterPositions
        demoMoveAction.actor = some { q := 0, r := 1 } :=
  ⟨(setBattleData_moveCache_spec (BattleOrchestrator.make demoArena)
      demoBattleData).2.1 (by decide) heroParticipant (by decide),
    ((setBattleData_moveCache_spec (BattleOrchestrator.make demoArena)
        demoBattleData).2.2.2 demoPlayingOrch demoMoveAction demoCharacter
      rfl rfl).1 [{ q := 1, r := 1 }, { q := 0, r := 1 }]
      { q := 0, r := 1 } rfl rfl⟩
